import Mathlib

/-!
Verification development for the core IR / code-generation layer of the
loki source-to-source compiler.  The definitions below are a shallow
embedding of the Python sources:

* `loki/expression/symbol_types.py` (Scalar/Array/Variable factory,
  literals, RangeIndex, scoped symbol table access),
* `loki/frontend/fparser.py` (operator translation `visit_operation`),
* `loki/frontend/util.py` (IR post-processing passes),
* `loki/backend/maxgen.py` (maxj kernel-dialect code emission).

Mutable Python objects (SymbolType records shared through scope symbol
tables) are modelled with an explicit heap: a `State` carries an
association list of symbol bindings (scope, name) -> type id and a list
of type records indexed by type id.  Object identity becomes identity of
heap indices; in-place mutation of a record becomes `updateHeap`.
-/

namespace Loki

/-- The `DataType` tags of `loki.types`. -/
inductive DataType where
  | LOGICAL
  | INTEGER
  | REAL
  | CHARACTER
  | DERIVED_TYPE
  | DEFERRED
deriving DecidableEq

/-- A single-quote character, written via its code point. -/
def squote : Char := Char.ofNat 39

/-- The characters of a string, as a list. -/
def chars (s : String) : List Char := s.data

/-- Expression nodes of the pymbolic-based expression model
(`loki/expression/symbol_types.py` plus the nodes produced by
`FParser2IR.visit_operation` in `loki/frontend/fparser.py`).
`pyInt` is a raw Python integer occurring inside a pymbolic tree (as in
the `-1` factors built for unary and binary minus), while `intLiteral`
etc. are the loki literal leaf classes. -/
inductive PExpr where
  | intLiteral (value : Int) (kind : Option String)
  | floatLiteral (value : String) (kind : Option String)
  | logicLiteral (value : Bool)
  | strLiteral (value : List Char)
  | pyInt (n : Int)
  | varExpr (name : String)
  | sum (xs : List PExpr)
  | product (xs : List PExpr)
  | quotient (num den : PExpr)
  | power (base exp : PExpr)
  | logicalAnd (xs : List PExpr)
  | logicalOr (xs : List PExpr)
  | logicalNot (x : PExpr)
  | comparison (l : PExpr) (op : String) (r : PExpr)

/-- `StringLiteral.__init__` from `symbol_types.py`: if the first and the
last character coincide and are a quote character, the two outer
characters are removed.  Accessing `value[0]` on an empty string raises
an `IndexError` in Python, modelled by `none`. -/
def StringLiteral_init (s : List Char) : Option (List Char) :=
  match s with
  | [] => none
  | c :: rest =>
    match (c :: rest).getLast? with
    | none => none
    | some lc =>
      if c = lc ∧ (c = '"' ∨ c = squote) then some rest.dropLast
      else some (c :: rest)

/-- A raw (non-expression) Python value handed to the `Literal` factory. -/
inductive RawValue where
  | int (n : Int)
  | float (s : String)
  | str (s : List Char)
deriving DecidableEq

/-- Lower-case a character list (Python `str.lower`). -/
def lowerChars (s : List Char) : List Char := s.map Char.toLower

/-- `Literal._from_literal` / `Literal.__new__` from `symbol_types.py`,
restricted to plain raw values: an `int` becomes an `IntLiteral`, a
`float` a `FloatLiteral`, and a string becomes a `LogicLiteral` when it
spells a Fortran truth value and a `StringLiteral` otherwise (whose
constructor can fail on the empty string). -/
def Literal_factory : RawValue → Option PExpr
  | .int n => some (.intLiteral n none)
  | .float s => some (.floatLiteral s none)
  | .str s =>
    if lowerChars s = chars ".true." ∨ lowerChars s = chars "true" ∨
       lowerChars s = chars ".false." ∨ lowerChars s = chars "false" then
      some (.logicLiteral (lowerChars s = chars "true" ∨ lowerChars s = chars ".true."))
    else
      (StringLiteral_init s).map .strLiteral

/-- An argument handed to the `RangeIndex` constructor: either an
expression node (`pmbl.Expression`) or a raw Python value. -/
inductive RangeBound where
  | expr (e : PExpr)
  | raw (v : RawValue)

/-- Result of `RangeIndex.__new__`: either a collapsed plain expression
or an actual `RangeIndex` instance holding the three bounds. -/
inductive RIResult where
  | collapsed (e : PExpr)
  | range (lower upper step : Option RangeBound)

/-- `RangeIndex._args2bounds` from `symbol_types.py`: positional
arguments fill (upper), (lower, upper) or (lower, upper, step), and
keyword arguments override the positional assignment. -/
def args2bounds (args : List RangeBound)
    (klower kupper kstep : Option RangeBound) :
    Option RangeBound × Option RangeBound × Option RangeBound :=
  let pos : Option RangeBound × Option RangeBound × Option RangeBound :=
    match args with
    | [u] => (none, some u, none)
    | [l, u] => (some l, some u, none)
    | [l, u, s] => (some l, some u, some s)
    | _ => (none, none, none)
  (klower.orElse (fun _ => pos.1),
   kupper.orElse (fun _ => pos.2.1),
   kstep.orElse (fun _ => pos.2.2))

/-- `RangeIndex.__new__` from `symbol_types.py`, after `_args2bounds`
has produced the three bounds.  With only an upper bound present the
constructor short-circuits: it returns the upper bound itself when it is
already an expression node and otherwise wraps it via the `Literal`
factory (`none` models the factory raising).  In all other cases an
actual `RangeIndex` object is allocated. -/
def RangeIndex_new (lower upper step : Option RangeBound) : Option RIResult :=
  match lower, upper, step with
  | none, some u, none =>
    match u with
    | .expr e => some (.collapsed e)
    | .raw v => (Literal_factory v).map .collapsed
  | l, u, s => some (.range l u s)

/-- Python `str.lower()` on an operator token. -/
def strLower (s : String) : String := String.mk (s.data.map Char.toLower)

/-- The operator tokens accepted by `FParser2IR.visit_operation`
(`loki/frontend/fparser.py`): arithmetic, logical operators and the
relational operators in symbolic and mnemonic spelling (the mnemonic
spellings case-insensitively). -/
def recognizedOp (op : String) : Bool :=
  op == "*" || op == "/" || op == "+" || op == "-" || op == "**" ||
  (strLower op) == ".and." || (strLower op) == ".or." ||
  op == "==" || (strLower op) == ".eq." ||
  op == "/=" || (strLower op) == ".ne." ||
  op == ">" || (strLower op) == ".gt." ||
  op == "<" || (strLower op) == ".lt." ||
  op == ">=" || (strLower op) == ".ge." ||
  op == "<=" || (strLower op) == ".le." ||
  (strLower op) == ".not."

/-- `FParser2IR.visit_operation` from `loki/frontend/fparser.py`.  The
`elif` chain is mirrored in source order; Python `IndexError`s from
accessing missing operands and the final `RuntimeError` are modelled as
`Except.error`. -/
def visit_operation (op : String) (exprs : List PExpr) : Except String PExpr :=
  if op = "*" then .ok (.product exprs)
  else if op = "/" then
    match exprs with
    | a :: b :: _ => .ok (.quotient a b)
    | _ => .error "IndexError"
  else if op = "+" then .ok (.sum exprs)
  else if op = "-" then
    match exprs with
    | a :: b :: _ => .ok (.sum [a, .product [.pyInt (-1), b]])
    | [a] => .ok (.product [.pyInt (-1), a])
    | [] => .error "IndexError"
  else if op = "**" then
    match exprs with
    | a :: b :: _ => .ok (.power a b)
    | _ => .error "IndexError"
  else if (strLower op) = ".and." then .ok (.logicalAnd exprs)
  else if (strLower op) = ".or." then .ok (.logicalOr exprs)
  else if op = "==" ∨ (strLower op) = ".eq." then
    match exprs with
    | a :: b :: _ => .ok (.comparison a "==" b)
    | _ => .error "IndexError"
  else if op = "/=" ∨ (strLower op) = ".ne." then
    match exprs with
    | a :: b :: _ => .ok (.comparison a "!=" b)
    | _ => .error "IndexError"
  else if op = ">" ∨ (strLower op) = ".gt." then
    match exprs with
    | a :: b :: _ => .ok (.comparison a ">" b)
    | _ => .error "IndexError"
  else if op = "<" ∨ (strLower op) = ".lt." then
    match exprs with
    | a :: b :: _ => .ok (.comparison a "<" b)
    | _ => .error "IndexError"
  else if op = ">=" ∨ (strLower op) = ".ge." then
    match exprs with
    | a :: b :: _ => .ok (.comparison a ">=" b)
    | _ => .error "IndexError"
  else if op = "<=" ∨ (strLower op) = ".le." then
    match exprs with
    | a :: b :: _ => .ok (.comparison a "<=" b)
    | _ => .error "IndexError"
  else if (strLower op) = ".not." then
    match exprs with
    | a :: _ => .ok (.logicalNot a)
    | [] => .error "IndexError"
  else .error "FParser: Error parsing generic expression"

/-- Identifier of a lexical scope (a `Subroutine` or `TypeDef` symbol
table object). -/
abbrev ScopeId := Nat

/-- Identifier of a `SymbolType` record in the modelled object heap.
Distinct ids model distinct Python objects. -/
abbrev TypeId := Nat

/-- The (name, scope) identity of a `Scalar`/`Array` variable instance,
as stored inside a derived type record or used as a type parent. -/
structure VarRef where
  name : String
  scope : ScopeId
deriving DecidableEq

/-- Modelled from the spec: the `SymbolType` record of `loki.types`
(not under `src/`): a data-type tag plus attributes (kind, intent,
pointer/parameter flags, array shape), and for derived types an ordered
field mapping (`fieldVars`) of name to field variable plus an optional
parent variable.  `kind` carries the `str()` rendering of the kind selector. -/
structure SymbolType where
  dtype : DataType
  kind : Option String
  intent : Option String
  pointer : Bool
  parameter : Bool
  dfestream : Bool
  dfevar : Bool
  shape : Option (List PExpr)
  fieldVars : List (String × VarRef)
  parent : Option VarRef

/-- The mutable world: per-scope symbol tables (an association list of
(scope, name) bindings, newest first, so rebinding shadows) and the heap
of `SymbolType` objects indexed by `TypeId`. -/
structure State where
  symbols : List ((ScopeId × String) × TypeId)
  heap : List SymbolType

/-- Modelled from the spec: `TypeTable.lookup(name, recursive=False)` of
`loki.types` (not under `src/`): the nearest binding in this scope, or
nothing for an undeclared name (`Variable.__new__` guards the result
with `if _type is not None`). -/
def lookupSymbol (st : State) (sc : ScopeId) (n : String) : Option TypeId :=
  ((st.symbols.find? (fun p => p.1 = (sc, n))).map (fun p => p.2))

/-- Modelled from the spec: `define` / `symbols[name] = type` on a scope
symbol table: insert or overwrite, last write wins. -/
def defineSymbol (st : State) (sc : ScopeId) (n : String) (tid : TypeId) : State :=
  { st with symbols := ((sc, n), tid) :: st.symbols }

/-- Allocate a fresh `SymbolType` object on the heap (Python object
construction, e.g. by `SymbolType(...)` or `SymbolType.clone`). -/
def allocType (st : State) (t : SymbolType) : TypeId × State :=
  (st.heap.length, { st with heap := st.heap ++ [t] })

/-- In-place mutation of the `SymbolType` object with id `tid`. -/
def updateHeap (st : State) (tid : TypeId) (t : SymbolType) : State :=
  { st with heap := st.heap.set tid t }

/-- The freshly constructed placeholder `SymbolType(DataType.DEFERRED)`. -/
def deferredType : SymbolType :=
  ⟨DataType.DEFERRED, none, none, false, false, false, false, none, [], none⟩

/-- A constructed `Scalar` or `Array` instance: its name, owning scope,
which of the two classes was instantiated, and the explicit dimensions
(always absent on a `Scalar`).  The declared type is deliberately NOT a
field: `Scalar.type`/`Array.type` read the scope symbol table live. -/
structure VarObj where
  name : String
  scope : ScopeId
  isArrayCls : Bool
  dimensions : Option (List PExpr)

/-- The `type` property of `Scalar`/`Array` (`symbol_types.py`): a live
lookup of the variable name in its scope symbol table. -/
def varTypeIdOf (st : State) (v : VarObj) : Option TypeId :=
  lookupSymbol st v.scope v.name

/-- `Scalar.basename` / `Array.basename` from `symbol_types.py`: the
symbol name after the last `%` qualifier (`name[name.rfind("%")+1:]`),
computed by scanning the characters and restarting at each `%`. -/
def basename (n : String) : String :=
  String.mk (n.data.foldl (fun acc c => if c = '%' then [] else acc ++ [c]) [])

mutual

/-- `Variable.__new__` from `symbol_types.py`: resolve the type (given
type or a non-recursive symbol-table lookup), read its shape, construct
a `Scalar` when no dimensions are given and the shape is absent or
empty, otherwise an `Array`; the `Scalar.__init__`/`Array.__init__`
side effect binds the resolved type (or a fresh DEFERRED placeholder)
in the scope symbol table; finally re-instantiate derived-type field
variables.  `fuel` bounds the recursion through nested derived types;
`none` models a Python exception or exhausted fuel. -/
def Variable_new : Nat → State → String → ScopeId → Option TypeId →
    Option (List PExpr) → Option (VarObj × State)
  | 0, _, _, _, _, _ => none
  | Nat.succ fuel, st, name, scope, tyArg, dims =>
    let t0 : Option TypeId :=
      match tyArg with
      | some t => some t
      | none => lookupSymbol st scope name
    match t0 with
    | some tid =>
      match st.heap[tid]? with
      | none => none
      | some tobj =>
        let shapeEmpty : Bool :=
          match tobj.shape with
          | none => true
          | some l => l.isEmpty
        let obj : VarObj := ⟨name, scope, !(dims.isNone && shapeEmpty), dims⟩
        instantiate_derived_type_variables fuel (defineSymbol st scope name tid) obj
    | none =>
      let p := allocType st deferredType
      let st1 := defineSymbol p.2 scope name p.1
      instantiate_derived_type_variables fuel st1 ⟨name, scope, !dims.isNone, dims⟩

/-- `Variable.instantiate_derived_type_variables` from
`symbol_types.py`: when the (live) type of the object is a derived type
whose field variables live in a different scope, replace the object
type by a clone with an emptied field mapping and re-create every field
variable in the object scope (each with a cloned type re-parented to
the object), appending each to the cloned type field mapping. -/
def instantiate_derived_type_variables : Nat → State → VarObj →
    Option (VarObj × State)
  | 0, _, _ => none
  | Nat.succ fuel, st, obj =>
    match varTypeIdOf st obj with
    | none => some (obj, st)
    | some tid =>
      match st.heap[tid]? with
      | none => none
      | some tobj =>
        if tobj.dtype = DataType.DERIVED_TYPE then
          match tobj.fieldVars with
          | [] => some (obj, st)
          | (k0, v0) :: rest =>
            if v0.scope ≠ obj.scope then
              let p := allocType st { tobj with fieldVars := [] }
              let st1 := defineSymbol p.2 obj.scope obj.name p.1
              match instantiateFields fuel st1 obj ((k0, v0) :: rest) with
              | none => none
              | some st2 => some (obj, st2)
            else some (obj, st)
        else some (obj, st)

/-- The loop body of `instantiate_derived_type_variables`: for each
field `(k, v)` of the original type, clone `v.type` with the new parent,
construct the field variable `obj.name%basename` in the object scope
with that clone, and append it to the (live) object type field mapping. -/
def instantiateFields : Nat → State → VarObj → List (String × VarRef) →
    Option State
  | 0, _, _, _ => none
  | Nat.succ _, st, _, [] => some st
  | Nat.succ fuel, st, obj, (k, v) :: rest =>
    match lookupSymbol st v.scope v.name with
    | none => none
    | some vt =>
      match st.heap[vt]? with
      | none => none
      | some vtobj =>
        let p := allocType st { vtobj with parent := some ⟨obj.name, obj.scope⟩ }
        let vname := obj.name ++ "%" ++ basename v.name
        match Variable_new fuel p.2 vname obj.scope (some p.1) none with
        | none => none
        | some fv =>
          match varTypeIdOf fv.2 obj with
          | none => none
          | some utid =>
            match fv.2.heap[utid]? with
            | none => none
            | some uobj =>
              let st3 := updateHeap fv.2 utid
                { uobj with fieldVars := uobj.fieldVars ++ [(k, ⟨fv.1.name, fv.1.scope⟩)] }
              instantiateFields fuel st3 obj rest

end

/-- `str()` of a kind selector: `str(None)` is the Python string
`"None"`, otherwise the rendering carried by the model. -/
def strKind : Option String → String
  | none => "None"
  | some s => s

/-- `maxj_dfevar_type` from `loki/backend/maxgen.py`: stream-type
selection for the kernel dialect; unsupported tags raise `ValueError`. -/
def maxj_dfevar_type (t : SymbolType) : Except String String :=
  if t.dtype = DataType.LOGICAL then .ok "dfeBool()"
  else if t.dtype = DataType.INTEGER then .ok "dfeInt(32)"
  else if t.dtype = DataType.REAL then
    (if strKind t.kind = "real32" then .ok "dfeFloat(8, 24)"
     else .ok "dfeFloat(11, 53)")
  else .error "ValueError"

/-- `maxj_local_type` from `loki/backend/maxgen.py`: scalar local type
selection for the kernel dialect. -/
def maxj_local_type (t : SymbolType) : Except String String :=
  if t.dtype = DataType.LOGICAL then .ok "boolean"
  else if t.dtype = DataType.INTEGER then .ok "int"
  else if t.dtype = DataType.REAL then
    (if strKind t.kind = "real32" then .ok "float" else .ok "double")
  else .error "ValueError"

/-- Expression operands of a maxj `Statement`: `Scalar` and `Array`
variable instances (carrying their (name, scope) identity, an optional
parent variable and, for arrays, index dimensions) and integer literal
leaves. -/
inductive MExpr where
  | scalarVar (name : String) (scope : ScopeId) (parent : Option MExpr)
  | arrayVar (name : String) (scope : ScopeId) (dims : List MExpr)
      (parent : Option MExpr)
  | intLit (n : Int)

/-- `isinstance(o.target, Array)` on a statement target. -/
def MExpr.isArrayInst : MExpr → Bool
  | .arrayVar _ _ _ _ => true
  | _ => false

/-- Whether the live type of a (name, scope) symbol carries the pointer
attribute; an unresolvable symbol contributes no pointer marker. -/
def typeIsPointer (st : State) (sc : ScopeId) (n : String) : Bool :=
  match lookupSymbol st sc n with
  | none => false
  | some tid =>
    match st.heap[tid]? with
    | none => false
    | some t => t.pointer

mutual

/-- `MaxjCodeMapper.map_scalar` / `map_array` / integer stringification
from `loki/backend/maxgen.py`: scalars carry a `*` marker for pointer
types and render parents parenthesised with a `.` separator; arrays
render the basename followed by one bracketed index per non-empty
rendered dimension. -/
def maxj_map (st : State) : MExpr → String
  | .scalarVar n sc p =>
    let ptr := if typeIsPointer st sc n then "*" else ""
    (match p with
     | some par => ptr ++ "(" ++ maxj_map st par ++ ")." ++ basename n
     | none => ptr ++ n)
  | .arrayVar n _ ds p =>
    let dims := String.join ((maxj_map_list st ds).filterMap
      (fun s => if s.length > 0 then some ("[" ++ s ++ "]") else none))
    (match p with
     | some par => "(" ++ maxj_map st par ++ ")." ++ basename n ++ dims
     | none => basename n ++ dims)
  | .intLit n => toString n

/-- Renderings of a dimension list, in order. -/
def maxj_map_list (st : State) : List MExpr → List String
  | [] => []
  | d :: ds => maxj_map st d :: maxj_map_list st ds

end

/-- The indentation string of `MaxjCodegen` at a given depth. -/
def indentStr (depth : Nat) : String := String.join (List.replicate depth "  ")

/-- A source span descriptor (`loki/frontend/source.py` `Source`):
start/end line markers plus the optional raw text and file/label tags. -/
structure Src where
  l1 : Nat
  l2 : Nat
  str : Option String
  file : Option String
  label : Option String
deriving DecidableEq

/-- `MaxjCodegen.visit_Comment` from `loki/backend/maxgen.py`: the
comment text (or, when absent, the raw source string) with `!` replaced
by `//`, indented; `none` models the Python attribute errors when both
the text and a usable source string are missing. -/
def visit_MaxjComment (depth : Nat) (src : Option Src) (text : Option String) :
    Option String :=
  match text with
  | some t => some (indentStr depth ++ t.replace "!" "//")
  | none =>
    match src with
    | some s =>
      match s.str with
      | some ss => some (indentStr depth ++ ss.replace "!" "//")
      | none => none
    | none => none

/-- `MaxjCodegen.visit_Statement` from `loki/backend/maxgen.py`: array
targets are bound with `<==`, all other targets with `=`; an attached
comment is appended after two spaces. -/
def visit_Statement_maxj (st : State) (depth : Nat) (target expr : MExpr)
    (comment : Option (Option Src × Option String)) : Option String :=
  let stmt :=
    if target.isArrayInst then
      maxj_map st target ++ " <== " ++ maxj_map st expr ++ ";
"
    else
      maxj_map st target ++ " = " ++ maxj_map st expr ++ ";
"
  match comment with
  | none => some (indentStr depth ++ stmt)
  | some (src, txt) =>
    match visit_MaxjComment depth src txt with
    | none => none
    | some c => some (indentStr depth ++ stmt ++ "  " ++ c)

/-- The IR node kinds handled by the post-processing passes of
`loki/frontend/util.py`.  Statements and declarations carry a comment
slot, declarations, calls and loops a pragma slot, and loops a nested
body.  Node payloads irrelevant to the passes are omitted. -/
inductive IRNode where
  | Statement (src : Option Src) (comment : Option IRNode)
  | Declaration (src : Option Src) (comment : Option IRNode)
      (pragma : Option IRNode)
  | Comment (src : Option Src) (text : String)
  | CommentBlock (comments : List IRNode) (src : Option Src)
  | Pragma (keyword content : String) (src : Option Src)
  | CallStatement (src : Option Src) (pragma : Option IRNode)
  | Loop (body : List IRNode) (pragma : Option IRNode) (src : Option Src)
  | Intrinsic (src : Option Src)

/-- The source span of a node. -/
def nodeSrc : IRNode → Option Src
  | .Statement src _ => src
  | .Declaration src _ _ => src
  | .Comment src _ => src
  | .CommentBlock _ src => src
  | .Pragma _ _ src => src
  | .CallStatement src _ => src
  | .Loop _ _ src => src
  | .Intrinsic src => src

/-- Type test used by the `(Statement|Declaration, Comment)` patterns. -/
def isStmtOrDecl : IRNode → Bool
  | .Statement _ _ => true
  | .Declaration _ _ _ => true
  | _ => false

/-- Type test for `Comment` nodes. -/
def isCommentNode : IRNode → Bool
  | .Comment _ _ => true
  | _ => false

/-- Type test for `Pragma` nodes. -/
def isPragmaNode : IRNode → Bool
  | .Pragma _ _ _ => true
  | _ => false

/-- Type test for the `(Pragma, Declaration|CallStatement|Loop)`
pattern targets of `inline_pragmas`. -/
def isPragmaTarget : IRNode → Bool
  | .Declaration _ _ _ => true
  | .CallStatement _ _ => true
  | .Loop _ _ _ => true
  | _ => false

/-- `pair[0]._rebuild(comment=pair[1])` for statements/declarations. -/
def setComment : IRNode → IRNode → IRNode
  | .Statement src _, c => .Statement src (some c)
  | .Declaration src _ p, c => .Declaration src (some c) p
  | n, _ => n

/-- `pair[1]._rebuild(pragma=pair[0])` for pragma targets. -/
def setPragma : IRNode → IRNode → IRNode
  | .Declaration src c _, p => .Declaration src c (some p)
  | .CallStatement src _, p => .CallStatement src (some p)
  | .Loop body _ src, p => .Loop body (some p) src
  | n, _ => n

/-- The merge condition of `inline_comments`: a statement/declaration
followed by a comment, both with source spans, where the comment span
starts on the line the preceding node span ends. -/
def commentMergeCond (a b : IRNode) : Bool :=
  isStmtOrDecl a && isCommentNode b &&
  (match nodeSrc a, nodeSrc b with
   | some sa, some sb => sb.l1 == sa.l2
   | _, _ => false)

mutual

/-- `inline_comments` from `loki/frontend/util.py`, modelled from the
spec for the missing visitor machinery (`PatternFinder` matches
adjacent sibling pairs, `NestedTransformer` rewrites them in place):
each matched `(Statement|Declaration, Comment)` pair with contiguous
spans is replaced by the rebuilt first node, deleting the comment;
everything else is kept in order, recursing into loop bodies. -/
def inlineCommentsList : List IRNode → List IRNode
  | [] => []
  | [a] => [inlineCommentsNode a]
  | a :: b :: rest =>
    if commentMergeCond a b then
      setComment (inlineCommentsNode a) b :: inlineCommentsList rest
    else
      inlineCommentsNode a :: inlineCommentsList (b :: rest)

/-- Recursion of `inline_comments` into nested bodies. -/
def inlineCommentsNode : IRNode → IRNode
  | .Loop body p src => .Loop (inlineCommentsList body) p src
  | n => n

end

mutual

/-- `inline_pragmas` from `loki/frontend/util.py`, modelled from the
spec for the missing visitor machinery: each matched
`(Pragma, Declaration|CallStatement|Loop)` pair is replaced by the
second node rebuilt with the pragma attached, deleting the standalone
pragma; everything else is kept in order, recursing into loop bodies. -/
def inlinePragmasList : List IRNode → List IRNode
  | [] => []
  | [a] => [inlinePragmasNode a]
  | a :: b :: rest =>
    if isPragmaNode a && isPragmaTarget b then
      setPragma (inlinePragmasNode b) a :: inlinePragmasList rest
    else
      inlinePragmasNode a :: inlinePragmasList (b :: rest)

/-- Recursion of `inline_pragmas` into nested bodies. -/
def inlinePragmasNode : IRNode → IRNode
  | .Loop body p src => .Loop (inlinePragmasList body) p src
  | n => n

end

/-- The merged source span of a comment run built by `cluster_comments`:
present only when every comment has a span; the string is the
concatenation when every span has one; lines run from the first comment
start to the last comment end; file and label come from the first. -/
def blockSrc (comments : List IRNode) : Option Src :=
  let srcs := comments.map nodeSrc
  if srcs.all Option.isSome then
    match srcs.filterMap id with
    | [] => none
    | s0 :: ss =>
      let strs := (s0 :: ss).map Src.str
      let str :=
        if strs.all Option.isSome then some (String.join (strs.filterMap id))
        else none
      some ⟨s0.l1, ((s0 :: ss).getLast (by simp)).l2, str, s0.file, s0.label⟩
  else none

/-- Replacement of a maximal comment run: runs of two or more comments
become a single `CommentBlock`; shorter runs are kept as they are. -/
def flushRun : List IRNode → List IRNode
  | [] => []
  | [c] => [c]
  | c1 :: c2 :: rest =>
    [.CommentBlock (c1 :: c2 :: rest) (blockSrc (c1 :: c2 :: rest))]

mutual

/-- The worker of `cluster_comments` from `loki/frontend/util.py`,
modelled from the spec for the missing visitor machinery
(`SequenceFinder` finds maximal runs of consecutive `Comment` siblings,
`NestedTransformer` replaces each run in place): `acc` is the pending
run of comments already scanned. -/
def clusterAux : List IRNode → List IRNode → List IRNode
  | acc, [] => flushRun acc
  | acc, x :: xs =>
    if isCommentNode x then clusterAux (acc ++ [x]) xs
    else flushRun acc ++ (clusterNode x :: clusterAux [] xs)

/-- Recursion of `cluster_comments` into nested bodies. -/
def clusterNode : IRNode → IRNode
  | .Loop body p src => .Loop (clusterAux [] body) p src
  | n => n

end

/-- `cluster_comments` on a sibling sequence. -/
def clusterCommentsList (l : List IRNode) : List IRNode := clusterAux [] l

/-- The value C10 predicts for `StringLiteral` construction, following
the claim text: inputs whose first and last characters are the same
single or double quote character lose those two outer characters, every
other input is stored unchanged. -/
def claimStringExpected (s : List Char) : List Char :=
  match s with
  | [] => []
  | c :: rest =>
    match (c :: rest).getLast? with
    | none => []
    | some lc =>
      if c = lc ∧ (c = '"' ∨ c = squote) then rest.dropLast
      else c :: rest

/-- The contiguity relation named by C9, following the claim text: both
nodes carry source spans and the second span starts on the same line
the first span ends, or on the next line. -/
def contiguousSameOrNextLine (a b : IRNode) : Bool :=
  match nodeSrc a, nodeSrc b with
  | some sa, some sb => sb.l1 == sa.l2 || sb.l1 == sa.l2 + 1
  | _, _ => false

/-- The merge condition of `inline_pragmas`: a pragma immediately
followed by a declaration, call or loop. -/
def pragmaMergeCond (a b : IRNode) : Bool :=
  isPragmaNode a && isPragmaTarget b

/-- No adjacent pair of comments at the head of a sibling sequence. -/
def headOkCluster (a : IRNode) : List IRNode → Bool
  | b :: _ => !(isCommentNode a && isCommentNode b)
  | [] => true

/-- No comment merge at the head of a sibling sequence. -/
def headOkComment (a : IRNode) : List IRNode → Bool
  | b :: _ => !commentMergeCond a b
  | [] => true

/-- No pragma merge at the head of a sibling sequence. -/
def headOkPragma (a : IRNode) : List IRNode → Bool
  | b :: _ => !pragmaMergeCond a b
  | [] => true

mutual

/-- A tree in which no sibling sequence contains two consecutive
comments (the fixed points of `cluster_comments`). -/
def clusterFreeNode : IRNode → Bool
  | .Loop body _ _ => clusterFreeList body
  | _ => true

/-- List form of `clusterFreeNode`. -/
def clusterFreeList : List IRNode → Bool
  | [] => true
  | a :: r => clusterFreeNode a && headOkCluster a r && clusterFreeList r

end

mutual

/-- A tree in which no sibling sequence contains a mergeable
(statement/declaration, comment) pair (fixed points of
`inline_comments`). -/
def cFreeNode : IRNode → Bool
  | .Loop body _ _ => cFreeList body
  | _ => true

/-- List form of `cFreeNode`. -/
def cFreeList : List IRNode → Bool
  | [] => true
  | a :: r => cFreeNode a && headOkComment a r && cFreeList r

end

mutual

/-- A tree in which no sibling sequence contains a mergeable
(pragma, target) pair (fixed points of `inline_pragmas`). -/
def pFreeNode : IRNode → Bool
  | .Loop body _ _ => pFreeList body
  | _ => true

/-- List form of `pFreeNode`. -/
def pFreeList : List IRNode → Bool
  | [] => true
  | a :: r => pFreeNode a && headOkPragma a r && pFreeList r

end

/-- No (statement/declaration, comment, comment) triple at the head. -/
def tripleOkComment (a b : IRNode) : List IRNode → Bool
  | c :: _ => !(isStmtOrDecl a && isCommentNode b && isCommentNode c)
  | [] => true

/-- No (pragma, pragma, target) triple at the head. -/
def tripleOkPragma (a b : IRNode) : List IRNode → Bool
  | c :: _ => !(isPragmaNode a && isPragmaNode b && isPragmaTarget c)
  | [] => true

mutual

/-- A tree free of adjacent (statement/declaration, comment, comment)
sibling triples: the hypothesis under which `inline_comments` is
idempotent. -/
def noCCTripleNode : IRNode → Bool
  | .Loop body _ _ => noCCTripleList body
  | _ => true

/-- List form of `noCCTripleNode`. -/
def noCCTripleList : List IRNode → Bool
  | [] => true
  | [a] => noCCTripleNode a
  | a :: b :: r => noCCTripleNode a && tripleOkComment a b r && noCCTripleList (b :: r)

end

mutual

/-- A tree free of adjacent (pragma, pragma, target) sibling triples:
the hypothesis under which `inline_pragmas` is idempotent. -/
def noPPTripleNode : IRNode → Bool
  | .Loop body _ _ => noPPTripleList body
  | _ => true

/-- List form of `noPPTripleNode`. -/
def noPPTripleList : List IRNode → Bool
  | [] => true
  | [a] => noPPTripleNode a
  | a :: b :: r => noPPTripleNode a && tripleOkPragma a b r && noPPTripleList (b :: r)

end

/-- Whether a `RangeIndex.__new__` outcome is an actual `RangeIndex`
instance. -/
def isRangeInstance : Option RIResult → Bool
  | some (.range _ _ _) => true
  | _ => false

/-- The type `Variable.__new__` resolves for a construction: the given
type if any, otherwise the non-recursive symbol-table lookup. -/
def resolvedTypeId (st : State) (sc : ScopeId) (n : String)
    (ty : Option TypeId) : Option TypeId :=
  match ty with
  | some t => some t
  | none => lookupSymbol st sc n

/-- Whether the resolved type's shape is absent or empty (the `Scalar`
side of the classification in `Variable.__new__`). -/
def resolvedShapeEmpty (st : State) (sc : ScopeId) (n : String)
    (ty : Option TypeId) : Bool :=
  match resolvedTypeId st sc n ty with
  | none => true
  | some tid =>
    match st.heap[tid]? with
    | none => true
    | some t =>
      match t.shape with
      | none => true
      | some l => l.isEmpty

/-- C10 (counterexample): on the empty input string, `StringLiteral`
construction raises an `IndexError` instead of storing the (unchanged)
empty value the claim predicts for inputs without a leading quote. -/
theorem StringLiteral_init_empty_counterexample :
    StringLiteral_init [] ≠ some (claimStringExpected []) := by
  simp [StringLiteral_init, claimStringExpected]

/-- C10 (amended): for every non-empty input string, `StringLiteral`
construction stores the value with the two outer characters removed
when the first and last characters are the same single or double quote
character, and stores every other non-empty input unchanged; in
particular a one-character quote input yields the empty string. -/
theorem StringLiteral_init_strips_outer_quotes (s : List Char) (h : s ≠ []) :
    StringLiteral_init s = some (claimStringExpected s) := by
  cases s with
  | nil => exact absurd rfl h
  | cons c rest =>
    obtain ⟨lc, hlc⟩ := Option.isSome_iff_exists.mp
      (List.getLast?_isSome.mpr (List.cons_ne_nil c rest))
    simp only [StringLiteral_init, claimStringExpected, hlc]
    split <;> rfl

/-- Witness for C10: evaluating the amended claim on the concrete
inputs a double-quoted two-letter string and a lone single quote. -/
theorem StringLiteral_init_strips_outer_quotes_witness :
    StringLiteral_init ('"' :: 'h' :: 'i' :: '"' :: []) =
      some (claimStringExpected ('"' :: 'h' :: 'i' :: '"' :: [])) ∧
    StringLiteral_init (squote :: []) =
      some (claimStringExpected (squote :: [])) :=
  ⟨StringLiteral_init_strips_outer_quotes _ (by decide),
   StringLiteral_init_strips_outer_quotes _ (by decide)⟩

/-- C4: `RangeIndex` construction with only an upper bound returns the
upper-bound expression itself (an expression argument is returned as
is, a raw value is wrapped through the `Literal` factory) and never an
actual `RangeIndex` instance. -/
theorem RangeIndex_new_upper_only_collapses :
    (∀ e, RangeIndex_new none (some (.expr e)) none = some (.collapsed e)) ∧
    (∀ v, RangeIndex_new none (some (.raw v)) none =
      (Literal_factory v).map .collapsed) ∧
    (∀ u, isRangeInstance (RangeIndex_new none (some u) none) = false) := by
  refine ⟨fun e => rfl, fun v => rfl, fun u => ?_⟩
  cases u with
  | expr e => rfl
  | raw v =>
    show isRangeInstance ((Literal_factory v).map RIResult.collapsed) = false
    cases Literal_factory v <;> rfl

/-- C6: `visit_operation` translates exactly the arithmetic tokens,
the logical operators and the relational operators in both symbolic and
mnemonic spelling, with both spellings of each relation producing the
identical `Comparison` node; every other operator token raises the
fatal translation error immediately. -/
theorem visit_operation_dispatch_table :
    (∀ es, visit_operation "*" es = .ok (.product es)) ∧
    (∀ a b t, visit_operation "/" (a :: b :: t) = .ok (.quotient a b)) ∧
    (∀ es, visit_operation "+" es = .ok (.sum es)) ∧
    (∀ a b t, visit_operation "-" (a :: b :: t) =
      .ok (.sum [a, .product [.pyInt (-1), b]])) ∧
    (∀ a, visit_operation "-" [a] = .ok (.product [.pyInt (-1), a])) ∧
    (∀ a b t, visit_operation "**" (a :: b :: t) = .ok (.power a b)) ∧
    (∀ es, visit_operation ".AND." es = .ok (.logicalAnd es) ∧
           visit_operation ".and." es = .ok (.logicalAnd es)) ∧
    (∀ es, visit_operation ".OR." es = .ok (.logicalOr es) ∧
           visit_operation ".or." es = .ok (.logicalOr es)) ∧
    (∀ a t, visit_operation ".NOT." (a :: t) = .ok (.logicalNot a) ∧
            visit_operation ".not." (a :: t) = .ok (.logicalNot a)) ∧
    (∀ a b t, visit_operation ".EQ." (a :: b :: t) = .ok (.comparison a "==" b) ∧
              visit_operation "==" (a :: b :: t) = .ok (.comparison a "==" b)) ∧
    (∀ a b t, visit_operation ".ne." (a :: b :: t) = .ok (.comparison a "!=" b) ∧
              visit_operation "/=" (a :: b :: t) = .ok (.comparison a "!=" b)) ∧
    (∀ a b t, visit_operation ".GT." (a :: b :: t) = .ok (.comparison a ">" b) ∧
              visit_operation ">" (a :: b :: t) = .ok (.comparison a ">" b)) ∧
    (∀ a b t, visit_operation ".lt." (a :: b :: t) = .ok (.comparison a "<" b) ∧
              visit_operation "<" (a :: b :: t) = .ok (.comparison a "<" b)) ∧
    (∀ a b t, visit_operation ".GE." (a :: b :: t) = .ok (.comparison a ">=" b) ∧
              visit_operation ">=" (a :: b :: t) = .ok (.comparison a ">=" b)) ∧
    (∀ a b t, visit_operation ".le." (a :: b :: t) = .ok (.comparison a "<=" b) ∧
              visit_operation "<=" (a :: b :: t) = .ok (.comparison a "<=" b)) ∧
    (∀ op es, recognizedOp op = false →
      visit_operation op es = .error "FParser: Error parsing generic expression") := by
  refine ⟨fun es => rfl, fun a b t => rfl, fun es => rfl, fun a b t => rfl,
    fun a => rfl, fun a b t => rfl, fun es => ⟨rfl, rfl⟩, fun es => ⟨rfl, rfl⟩,
    fun a t => ⟨rfl, rfl⟩, fun a b t => ⟨rfl, rfl⟩, fun a b t => ⟨rfl, rfl⟩,
    fun a b t => ⟨rfl, rfl⟩, fun a b t => ⟨rfl, rfl⟩, fun a b t => ⟨rfl, rfl⟩,
    fun a b t => ⟨rfl, rfl⟩, ?_⟩
  intro op es h
  simp only [recognizedOp, Bool.or_eq_false_iff, beq_eq_false_iff_ne, ne_eq,
    and_assoc] at h
  obtain ⟨h1, h2, h3, h4, h5, h6, h7, h8, h9, h10, h11, h12, h13, h14, h15,
    h16, h17, h18, h19, h20⟩ := h
  unfold visit_operation
  rw [if_neg h1, if_neg h2, if_neg h3, if_neg h4, if_neg h5, if_neg h6,
    if_neg h7, if_neg (not_or.mpr ⟨h8, h9⟩), if_neg (not_or.mpr ⟨h10, h11⟩),
    if_neg (not_or.mpr ⟨h12, h13⟩), if_neg (not_or.mpr ⟨h14, h15⟩),
    if_neg (not_or.mpr ⟨h16, h17⟩), if_neg (not_or.mpr ⟨h18, h19⟩),
    if_neg h20]

/-- Witness for C6: the unrecognized operator token `%` with no
operands raises the fatal translation error. -/
theorem visit_operation_dispatch_table_witness :
    visit_operation "%" [] = .error "FParser: Error parsing generic expression" :=
  visit_operation_dispatch_table.2.2.2.2.2.2.2.2.2.2.2.2.2.2.2 "%" [] (by decide)

/-- C7: kernel-dialect stream-type emission maps REAL with the 32-bit
kind tag to the (8, 24) float type and every other REAL (including an
absent kind tag) to the (11, 53) double type; LOGICAL maps to the
boolean stream type and INTEGER to the 32-bit integer stream type. -/
theorem maxj_dfevar_type_mapping :
    (∀ t, t.dtype = DataType.REAL →
      maxj_dfevar_type t =
        .ok (if strKind t.kind = "real32" then "dfeFloat(8, 24)"
             else "dfeFloat(11, 53)")) ∧
    (∀ t, t.dtype = DataType.REAL → t.kind = none →
      maxj_dfevar_type t = .ok "dfeFloat(11, 53)") ∧
    (∀ t, t.dtype = DataType.LOGICAL → maxj_dfevar_type t = .ok "dfeBool()") ∧
    (∀ t, t.dtype = DataType.INTEGER → maxj_dfevar_type t = .ok "dfeInt(32)") := by
  refine ⟨fun t ht => ?_, fun t ht hk => ?_, fun t ht => ?_, fun t ht => ?_⟩
  · simp [maxj_dfevar_type, ht]
    split <;> rfl
  · simp [maxj_dfevar_type, ht, hk, strKind]
  · simp [maxj_dfevar_type, ht]
  · simp [maxj_dfevar_type, ht]

/-- Witness for C7: evaluating the mapping on a 32-bit-kind REAL, an
untagged REAL, a LOGICAL and an INTEGER type record. -/
theorem maxj_dfevar_type_mapping_witness :
    maxj_dfevar_type ⟨DataType.REAL, some "real32", none, false, false, false,
      false, none, [], none⟩ = .ok "dfeFloat(8, 24)" ∧
    maxj_dfevar_type ⟨DataType.REAL, none, none, false, false, false,
      false, none, [], none⟩ = .ok "dfeFloat(11, 53)" ∧
    maxj_dfevar_type ⟨DataType.LOGICAL, none, none, false, false, false,
      false, none, [], none⟩ = .ok "dfeBool()" ∧
    maxj_dfevar_type ⟨DataType.INTEGER, none, none, false, false, false,
      false, none, [], none⟩ = .ok "dfeInt(32)" :=
  ⟨by simpa using maxj_dfevar_type_mapping.1 _ rfl,
   maxj_dfevar_type_mapping.2.1 _ rfl rfl,
   maxj_dfevar_type_mapping.2.2.1 _ rfl,
   maxj_dfevar_type_mapping.2.2.2 _ rfl⟩

theorem isCommentNode_clusterNode (x : IRNode) :
    isCommentNode (clusterNode x) = isCommentNode x := by
  cases x <;> rfl

theorem clusterFreeNode_of_comment {c : IRNode} (h : isCommentNode c = true) :
    clusterFreeNode c = true := by
  cases c <;> first | rfl | simp [isCommentNode] at h

theorem clusterFreeList_cons (a : IRNode) (l : List IRNode) :
    clusterFreeList (a :: l) =
      (clusterFreeNode a && headOkCluster a l && clusterFreeList l) := rfl

theorem headOkCluster_of_notComment {a : IRNode} (h : isCommentNode a = false)
    (l : List IRNode) : headOkCluster a l = true := by
  cases l <;> simp [headOkCluster, h]

theorem flushRun_shape (acc : List IRNode) :
    flushRun acc = [] ∨ ∃ y, flushRun acc = [y] := by
  match acc with
  | [] => exact Or.inl rfl
  | [c] => exact Or.inr ⟨c, rfl⟩
  | c1 :: c2 :: rest => exact Or.inr ⟨_, rfl⟩

theorem flushRun_free {acc : List IRNode} (h : acc.all isCommentNode = true) :
    clusterFreeList (flushRun acc) = true := by
  match acc with
  | [] => rfl
  | [c] =>
    simp only [List.all_cons, List.all_nil, Bool.and_true] at h
    simp [flushRun, clusterFreeList_cons, clusterFreeNode_of_comment h,
      headOkCluster, clusterFreeList]
  | c1 :: c2 :: rest => rfl

mutual

theorem clusterAux_free : ∀ (acc l : List IRNode),
    acc.all isCommentNode = true → clusterFreeList (clusterAux acc l) = true
  | acc, [], h => by simpa [clusterAux] using flushRun_free h
  | acc, x :: xs, h => by
    by_cases hx : isCommentNode x = true
    · have h2 : (acc ++ [x]).all isCommentNode = true := by
        simp [List.all_append, h, hx]
      simpa [clusterAux, hx] using clusterAux_free (acc ++ [x]) xs h2
    · have hx2 : isCommentNode x = false := by simpa using hx
      have hfree := clusterAux_free [] xs rfl
      have hnode := clusterNode_free x
      have hok := headOkCluster_of_notComment
        (by rw [isCommentNode_clusterNode]; exact hx2) (clusterAux [] xs)
      rcases flushRun_shape acc with hsh | ⟨y, hsh⟩
      · simp [clusterAux, hx2, hsh, clusterFreeList_cons, hnode, hok, hfree]
      · have hyfree : clusterFreeNode y = true := by
          have h3 := flushRun_free h
          rw [hsh, clusterFreeList_cons] at h3
          simp only [Bool.and_eq_true] at h3
          exact h3.1.1
        have hoky : headOkCluster y (clusterNode x :: clusterAux [] xs) = true := by
          simp [headOkCluster, isCommentNode_clusterNode, hx2]
        simp [clusterAux, hx2, hsh, clusterFreeList_cons, hnode, hok, hfree,
          hyfree, hoky]
termination_by acc l h => sizeOf l

theorem clusterNode_free : ∀ (x : IRNode), clusterFreeNode (clusterNode x) = true
  | .Loop body p src => by
    simpa [clusterNode, clusterFreeNode] using clusterAux_free [] body rfl
  | .Statement s c => rfl
  | .Declaration s c p => rfl
  | .Comment s t => rfl
  | .CommentBlock cs s => rfl
  | .Pragma k c s => rfl
  | .CallStatement s p => rfl
  | .Intrinsic s => rfl
termination_by x => sizeOf x

end

mutual

theorem clusterAux_fix : ∀ (l : List IRNode),
    clusterFreeList l = true → clusterAux [] l = l
  | [], _ => rfl
  | x :: xs, h => by
    rw [clusterFreeList_cons] at h
    simp only [Bool.and_eq_true] at h
    obtain ⟨⟨hnode, hhead⟩, htail⟩ := h
    by_cases hx : isCommentNode x = true
    · cases xs with
      | nil => simp [clusterAux, hx, flushRun]
      | cons y ys =>
        have hy : isCommentNode y = false := by
          simp [headOkCluster, hx] at hhead
          exact hhead
        rw [clusterFreeList_cons] at htail
        simp only [Bool.and_eq_true] at htail
        obtain ⟨⟨hny, _⟩, hty⟩ := htail
        have hrest := clusterAux_fix ys hty
        have hnodey := clusterNode_fix y hny
        simp [clusterAux, hx, hy, flushRun, hrest, hnodey]
    · have hx2 : isCommentNode x = false := by simpa using hx
      have hrest := clusterAux_fix xs htail
      have hnodex := clusterNode_fix x hnode
      simp [clusterAux, hx2, flushRun, hrest, hnodex]
termination_by l h => sizeOf l

theorem clusterNode_fix : ∀ (x : IRNode), clusterFreeNode x = true → clusterNode x = x
  | .Loop body p src, h => by
    have hb := clusterAux_fix body (by simpa [clusterFreeNode] using h)
    simp [clusterNode, hb]
  | .Statement s c, _ => rfl
  | .Declaration s c p, _ => rfl
  | .Comment s t, _ => rfl
  | .CommentBlock cs s, _ => rfl
  | .Pragma k c s, _ => rfl
  | .CallStatement s p, _ => rfl
  | .Intrinsic s, _ => rfl
termination_by x h => sizeOf x

end

theorem isCommentNode_icNode (x : IRNode) :
    isCommentNode (inlineCommentsNode x) = isCommentNode x := by
  cases x <;> rfl

theorem isStmtOrDecl_icNode (x : IRNode) :
    isStmtOrDecl (inlineCommentsNode x) = isStmtOrDecl x := by
  cases x <;> rfl

theorem nodeSrc_icNode (x : IRNode) :
    nodeSrc (inlineCommentsNode x) = nodeSrc x := by
  cases x <;> rfl

theorem isCommentNode_setComment (x b : IRNode) :
    isCommentNode (setComment x b) = isCommentNode x := by
  cases x <;> rfl

theorem isStmtOrDecl_setComment (x b : IRNode) :
    isStmtOrDecl (setComment x b) = isStmtOrDecl x := by
  cases x <;> rfl

theorem nodeSrc_setComment (x b : IRNode) :
    nodeSrc (setComment x b) = nodeSrc x := by
  cases x <;> rfl

theorem cFreeNode_setComment (x b : IRNode) :
    cFreeNode (setComment x b) = cFreeNode x := by
  cases x <;> rfl

theorem commentMergeCond_congr {a a2 b b2 : IRNode}
    (h1 : isStmtOrDecl a = isStmtOrDecl a2)
    (h2 : isCommentNode b = isCommentNode b2)
    (h3 : nodeSrc a = nodeSrc a2) (h4 : nodeSrc b = nodeSrc b2) :
    commentMergeCond a b = commentMergeCond a2 b2 := by
  simp [commentMergeCond, h1, h2, h3, h4]

theorem cFreeList_cons (a : IRNode) (l : List IRNode) :
    cFreeList (a :: l) = (cFreeNode a && headOkComment a l && cFreeList l) := rfl

theorem noCCTripleList_tail {a : IRNode} {l : List IRNode}
    (h : noCCTripleList (a :: l) = true) : noCCTripleList l = true := by
  cases l with
  | nil => rfl
  | cons b r =>
    rw [show noCCTripleList (a :: b :: r) =
      (noCCTripleNode a && tripleOkComment a b r && noCCTripleList (b :: r))
      from rfl] at h
    simp only [Bool.and_eq_true] at h
    exact h.2

theorem noCCTripleList_node {a : IRNode} {l : List IRNode}
    (h : noCCTripleList (a :: l) = true) : noCCTripleNode a = true := by
  cases l with
  | nil => simpa [noCCTripleList] using h
  | cons b r =>
    rw [show noCCTripleList (a :: b :: r) =
      (noCCTripleNode a && tripleOkComment a b r && noCCTripleList (b :: r))
      from rfl] at h
    simp only [Bool.and_eq_true] at h
    exact h.1.1

theorem icList_head (x : IRNode) (xs : List IRNode) :
    ∃ hd tl, inlineCommentsList (x :: xs) = hd :: tl ∧
      isCommentNode hd = isCommentNode x ∧
      isStmtOrDecl hd = isStmtOrDecl x ∧ nodeSrc hd = nodeSrc x := by
  cases xs with
  | nil =>
    exact ⟨inlineCommentsNode x, [], rfl, isCommentNode_icNode x,
      isStmtOrDecl_icNode x, nodeSrc_icNode x⟩
  | cons b rest =>
    by_cases hc : commentMergeCond x b = true
    · refine ⟨setComment (inlineCommentsNode x) b, inlineCommentsList rest,
        by simp [inlineCommentsList, hc], ?_, ?_, ?_⟩
      · rw [isCommentNode_setComment, isCommentNode_icNode]
      · rw [isStmtOrDecl_setComment, isStmtOrDecl_icNode]
      · rw [nodeSrc_setComment, nodeSrc_icNode]
    · refine ⟨inlineCommentsNode x, inlineCommentsList (b :: rest),
        by simp [inlineCommentsList, hc], isCommentNode_icNode x,
        isStmtOrDecl_icNode x, nodeSrc_icNode x⟩

mutual

theorem icList_free : ∀ (l : List IRNode), noCCTripleList l = true →
    cFreeList (inlineCommentsList l) = true
  | [], _ => rfl
  | [a], h => by
    have ha : noCCTripleNode a = true := by simpa [noCCTripleList] using h
    simp [inlineCommentsList, cFreeList_cons, icNode_free a ha, headOkComment,
      cFreeList]
  | a :: b :: rest, h => by
    rw [show noCCTripleList (a :: b :: rest) =
      (noCCTripleNode a && tripleOkComment a b rest && noCCTripleList (b :: rest))
      from rfl] at h
    simp only [Bool.and_eq_true] at h
    obtain ⟨⟨hna, htr⟩, htl⟩ := h
    by_cases hc : commentMergeCond a b = true
    · have hparts := hc
      rw [show commentMergeCond a b =
        (isStmtOrDecl a && isCommentNode b &&
          (match nodeSrc a, nodeSrc b with
           | some sa, some sb => sb.l1 == sa.l2
           | _, _ => false)) from rfl] at hparts
      simp only [Bool.and_eq_true] at hparts
      obtain ⟨⟨hstmt, hcb⟩, _⟩ := hparts
      have hfree := icList_free rest (noCCTripleList_tail htl)
      have hnodeok : cFreeNode (setComment (inlineCommentsNode a) b) = true := by
        rw [cFreeNode_setComment]
        exact icNode_free a hna
      cases rest with
      | nil => simp [inlineCommentsList, hc, cFreeList_cons, hnodeok,
          headOkComment, cFreeList]
      | cons x xs =>
        obtain ⟨hd, tl, hout, hcom, _, _⟩ := icList_head x xs
        have hx : isCommentNode x = false := by
          simp [tripleOkComment, hstmt, hcb] at htr
          exact htr
        have hcond : commentMergeCond (setComment (inlineCommentsNode a) b) hd
            = false := by
          simp [commentMergeCond, hcom, hx]
        rw [hout] at hfree
        simp [inlineCommentsList, hc, hout, cFreeList_cons, hnodeok,
          headOkComment, hcond, hfree]
    · have hfree := icList_free (b :: rest) htl
      obtain ⟨hd, tl, hout, hcom, _, hsrc⟩ := icList_head b rest
      have hcond : commentMergeCond (inlineCommentsNode a) hd = false := by
        rw [commentMergeCond_congr (isStmtOrDecl_icNode a) hcom
          (nodeSrc_icNode a) hsrc]
        simpa using hc
      rw [hout] at hfree
      simp [inlineCommentsList, hc, hout, cFreeList_cons,
        icNode_free a hna, headOkComment, hcond, hfree]
termination_by l h => sizeOf l

theorem icNode_free : ∀ (x : IRNode), noCCTripleNode x = true →
    cFreeNode (inlineCommentsNode x) = true
  | .Loop body p src, h => by
    simpa [inlineCommentsNode, cFreeNode] using
      icList_free body (by simpa [noCCTripleNode] using h)
  | .Statement s c, _ => rfl
  | .Declaration s c p, _ => rfl
  | .Comment s t, _ => rfl
  | .CommentBlock cs s, _ => rfl
  | .Pragma k c s, _ => rfl
  | .CallStatement s p, _ => rfl
  | .Intrinsic s, _ => rfl
termination_by x h => sizeOf x

end

mutual

theorem icList_fix : ∀ (l : List IRNode), cFreeList l = true →
    inlineCommentsList l = l
  | [], _ => rfl
  | [a], h => by
    have ha : cFreeNode a = true := by
      rw [cFreeList_cons] at h
      simp only [Bool.and_eq_true] at h
      exact h.1.1
    simp [inlineCommentsList, icNode_fix a ha]
  | a :: b :: rest, h => by
    rw [cFreeList_cons] at h
    simp only [Bool.and_eq_true] at h
    obtain ⟨⟨hna, hhead⟩, htl⟩ := h
    have hc : commentMergeCond a b = false := by
      simpa [headOkComment] using hhead
    simp [inlineCommentsList, hc, icNode_fix a hna, icList_fix (b :: rest) htl]
termination_by l h => sizeOf l

theorem icNode_fix : ∀ (x : IRNode), cFreeNode x = true →
    inlineCommentsNode x = x
  | .Loop body p src, h => by
    have hb := icList_fix body (by simpa [cFreeNode] using h)
    simp [inlineCommentsNode, hb]
  | .Statement s c, _ => rfl
  | .Declaration s c p, _ => rfl
  | .Comment s t, _ => rfl
  | .CommentBlock cs s, _ => rfl
  | .Pragma k c s, _ => rfl
  | .CallStatement s p, _ => rfl
  | .Intrinsic s, _ => rfl
termination_by x h => sizeOf x

end

theorem isPragmaNode_ipNode (x : IRNode) :
    isPragmaNode (inlinePragmasNode x) = isPragmaNode x := by
  cases x <;> rfl

theorem isPragmaTarget_ipNode (x : IRNode) :
    isPragmaTarget (inlinePragmasNode x) = isPragmaTarget x := by
  cases x <;> rfl

theorem isPragmaNode_setPragma (x p : IRNode) :
    isPragmaNode (setPragma x p) = isPragmaNode x := by
  cases x <;> rfl

theorem pFreeNode_setPragma (x p : IRNode) :
    pFreeNode (setPragma x p) = pFreeNode x := by
  cases x <;> rfl

theorem isPragmaNode_of_target {b : IRNode} (h : isPragmaTarget b = true) :
    isPragmaNode b = false := by
  cases b <;> simp_all [isPragmaTarget, isPragmaNode]

theorem pFreeList_cons (a : IRNode) (l : List IRNode) :
    pFreeList (a :: l) = (pFreeNode a && headOkPragma a l && pFreeList l) := rfl

theorem headOkPragma_of_notPragma {a : IRNode} (h : isPragmaNode a = false)
    (l : List IRNode) : headOkPragma a l = true := by
  cases l <;> simp [headOkPragma, pragmaMergeCond, h]

theorem noPPTripleList_tail {a : IRNode} {l : List IRNode}
    (h : noPPTripleList (a :: l) = true) : noPPTripleList l = true := by
  cases l with
  | nil => rfl
  | cons b r =>
    rw [show noPPTripleList (a :: b :: r) =
      (noPPTripleNode a && tripleOkPragma a b r && noPPTripleList (b :: r))
      from rfl] at h
    simp only [Bool.and_eq_true] at h
    exact h.2

theorem noPPTripleList_node {a : IRNode} {l : List IRNode}
    (h : noPPTripleList (a :: l) = true) : noPPTripleNode a = true := by
  cases l with
  | nil => simpa [noPPTripleList] using h
  | cons b r =>
    rw [show noPPTripleList (a :: b :: r) =
      (noPPTripleNode a && tripleOkPragma a b r && noPPTripleList (b :: r))
      from rfl] at h
    simp only [Bool.and_eq_true] at h
    exact h.1.1

mutual

theorem ipList_free : ∀ (l : List IRNode), noPPTripleList l = true →
    pFreeList (inlinePragmasList l) = true
  | [], _ => rfl
  | [a], h => by
    have ha : noPPTripleNode a = true := by simpa [noPPTripleList] using h
    simp [inlinePragmasList, pFreeList_cons, ipNode_free a ha,
      headOkPragma, pFreeList]
  | a :: b :: rest, h => by
    have hna : noPPTripleNode a = true := noPPTripleList_node h
    have htl : noPPTripleList (b :: rest) = true := noPPTripleList_tail h
    have htr : tripleOkPragma a b rest = true := by
      rw [show noPPTripleList (a :: b :: rest) =
        (noPPTripleNode a && tripleOkPragma a b rest &&
          noPPTripleList (b :: rest)) from rfl] at h
      simp only [Bool.and_eq_true] at h
      exact h.1.2
    by_cases hc : (isPragmaNode a && isPragmaTarget b) = true
    · simp only [Bool.and_eq_true] at hc
      obtain ⟨hap, hbt⟩ := hc
      have hfree := ipList_free rest (noPPTripleList_tail htl)
      have hnodeok : pFreeNode (setPragma (inlinePragmasNode b) a) = true := by
        rw [pFreeNode_setPragma]
        exact ipNode_free b (noPPTripleList_node htl)
      have hnp : isPragmaNode (setPragma (inlinePragmasNode b) a) = false := by
        rw [isPragmaNode_setPragma, isPragmaNode_ipNode]
        exact isPragmaNode_of_target hbt
      simp [inlinePragmasList, hap, hbt, pFreeList_cons, hnodeok,
        headOkPragma_of_notPragma hnp, hfree]
    · have hfree := ipList_free (b :: rest) htl
      have hgoal : pFreeList (inlinePragmasNode a :: inlinePragmasList (b :: rest))
          = true := by
        by_cases hap : isPragmaNode a = true
        · have hbt : isPragmaTarget b = false := by
            rcases Bool.eq_false_or_eq_true (isPragmaTarget b) with hbt | hbt
            · exact absurd (by simp [hap, hbt]) hc
            · exact hbt
          cases rest with
          | nil =>
            have hok : headOkPragma (inlinePragmasNode a)
                (inlinePragmasList [b]) = true := by
              simp [inlinePragmasList, headOkPragma, pragmaMergeCond,
                isPragmaTarget_ipNode, hbt]
            simp [pFreeList_cons, ipNode_free a hna, hok, hfree]
          | cons r1 r2 =>
            by_cases hm : (isPragmaNode b && isPragmaTarget r1) = true
            · exfalso
              simp only [Bool.and_eq_true] at hm
              simp [tripleOkPragma, hap, hm.1, hm.2] at htr
            · have hout : inlinePragmasList (b :: r1 :: r2) =
                  inlinePragmasNode b :: inlinePragmasList (r1 :: r2) := by
                simp [inlinePragmasList, hm]
              rw [hout] at hfree ⊢
              have hok : headOkPragma (inlinePragmasNode a)
                  (inlinePragmasNode b :: inlinePragmasList (r1 :: r2)) = true := by
                simp [headOkPragma, pragmaMergeCond, isPragmaTarget_ipNode, hbt]
              simp [pFreeList_cons, ipNode_free a hna, hok, hfree]
        · have hap2 : isPragmaNode a = false := by simpa using hap
          have hok := headOkPragma_of_notPragma
            (by rw [isPragmaNode_ipNode]; exact hap2)
            (inlinePragmasList (b :: rest))
          simp [pFreeList_cons, ipNode_free a hna, hok, hfree]
      have hout2 : inlinePragmasList (a :: b :: rest) =
          inlinePragmasNode a :: inlinePragmasList (b :: rest) := by
        simp only [inlinePragmasList]
        rw [if_neg (by simpa using hc)]
      rw [hout2]
      exact hgoal
termination_by l h => sizeOf l

theorem ipNode_free : ∀ (x : IRNode), noPPTripleNode x = true →
    pFreeNode (inlinePragmasNode x) = true
  | .Loop body p src, h => by
    simpa [inlinePragmasNode, pFreeNode] using
      ipList_free body (by simpa [noPPTripleNode] using h)
  | .Statement s c, _ => rfl
  | .Declaration s c p, _ => rfl
  | .Comment s t, _ => rfl
  | .CommentBlock cs s, _ => rfl
  | .Pragma k c s, _ => rfl
  | .CallStatement s p, _ => rfl
  | .Intrinsic s, _ => rfl
termination_by x h => sizeOf x

end

mutual

theorem ipList_fix : ∀ (l : List IRNode), pFreeList l = true →
    inlinePragmasList l = l
  | [], _ => rfl
  | [a], h => by
    have ha : pFreeNode a = true := by
      rw [pFreeList_cons] at h
      simp only [Bool.and_eq_true] at h
      exact h.1.1
    simp [inlinePragmasList, ipNode_fix a ha]
  | a :: b :: rest, h => by
    rw [pFreeList_cons] at h
    simp only [Bool.and_eq_true] at h
    obtain ⟨⟨hna, hhead⟩, htl⟩ := h
    have hc : (isPragmaNode a && isPragmaTarget b) = false := by
      have hc0 := hhead
      rw [show headOkPragma a (b :: rest) = !pragmaMergeCond a b from rfl,
        Bool.not_eq_true'] at hc0
      exact hc0
    simp [inlinePragmasList, hc, ipNode_fix a hna, ipList_fix (b :: rest) htl]
termination_by l h => sizeOf l

theorem ipNode_fix : ∀ (x : IRNode), pFreeNode x = true →
    inlinePragmasNode x = x
  | .Loop body p src, h => by
    have hb := ipList_fix body (by simpa [pFreeNode] using h)
    simp [inlinePragmasNode, hb]
  | .Statement s c, _ => rfl
  | .Declaration s c p, _ => rfl
  | .Comment s t, _ => rfl
  | .CommentBlock cs s, _ => rfl
  | .Pragma k c s, _ => rfl
  | .CallStatement s p, _ => rfl
  | .Intrinsic s, _ => rfl
termination_by x h => sizeOf x

end

/-- C5 (counterexample): pragma inlining is not idempotent: on the
sibling sequence [Pragma a, Pragma b, Declaration], the first run
attaches pragma b to the declaration and leaves pragma a standalone,
and the second run attaches pragma a, yielding a different tree. -/
theorem inline_pragmas_not_idempotent_counterexample :
    inlinePragmasList (inlinePragmasList
      [IRNode.Pragma "omp" "a" none, IRNode.Pragma "omp" "b" none,
       IRNode.Declaration none none none]) ≠
    inlinePragmasList
      [IRNode.Pragma "omp" "a" none, IRNode.Pragma "omp" "b" none,
       IRNode.Declaration none none none] := by
  intro h
  have h2 : ([IRNode.Declaration none none
        (some (IRNode.Pragma "omp" "a" none))] : List IRNode) =
      [IRNode.Pragma "omp" "a" none,
       IRNode.Declaration none none (some (IRNode.Pragma "omp" "b" none))] := h
  simpa using congrArg List.length h2

/-- C5 (amended): comment clustering is idempotent on every sibling
tree; inline-comment merging is idempotent on trees with no adjacent
(statement/declaration, comment, comment) sibling triple, and pragma
inlining on trees with no adjacent (pragma, pragma, target) sibling
triple (the counterexample shows a double pragma defeats idempotence);
moreover each pass is the identity on (and hence does not reorder)
trees containing nothing it merges or deletes. -/
theorem ir_passes_idempotence :
    (∀ l, clusterCommentsList (clusterCommentsList l) = clusterCommentsList l) ∧
    (∀ l, noCCTripleList l = true →
      inlineCommentsList (inlineCommentsList l) = inlineCommentsList l) ∧
    (∀ l, noPPTripleList l = true →
      inlinePragmasList (inlinePragmasList l) = inlinePragmasList l) ∧
    (∀ l, clusterFreeList l = true → clusterCommentsList l = l) ∧
    (∀ l, cFreeList l = true → inlineCommentsList l = l) ∧
    (∀ l, pFreeList l = true → inlinePragmasList l = l) := by
  refine ⟨fun l => ?_, fun l h => ?_, fun l h => ?_,
    clusterAux_fix, icList_fix, ipList_fix⟩
  · exact clusterAux_fix _ (clusterAux_free [] l rfl)
  · exact icList_fix _ (icList_free l h)
  · exact ipList_fix _ (ipList_free l h)

/-- Witness for C5: the amended idempotence evaluated on a concrete
merged statement/comment pair, a concrete pragma/declaration pair, and
a concrete comment run. -/
theorem ir_passes_idempotence_witness :
    inlineCommentsList (inlineCommentsList
      [IRNode.Statement (some ⟨1, 1, none, none, none⟩) none,
       IRNode.Comment (some ⟨1, 1, none, none, none⟩) "c"]) =
    inlineCommentsList
      [IRNode.Statement (some ⟨1, 1, none, none, none⟩) none,
       IRNode.Comment (some ⟨1, 1, none, none, none⟩) "c"] ∧
    inlinePragmasList (inlinePragmasList
      [IRNode.Pragma "omp" "a" none, IRNode.Declaration none none none]) =
    inlinePragmasList
      [IRNode.Pragma "omp" "a" none, IRNode.Declaration none none none] ∧
    clusterCommentsList (clusterCommentsList
      [IRNode.Comment none "a", IRNode.Comment none "b"]) =
    clusterCommentsList [IRNode.Comment none "a", IRNode.Comment none "b"] :=
  ⟨ir_passes_idempotence.2.1 _ rfl, ir_passes_idempotence.2.2.1 _ rfl,
   ir_passes_idempotence.1 _⟩

/-- C9 (counterexample): a comment whose span starts on the line after
the preceding statement span ends is contiguous on the next line, yet
`inline_comments` leaves the pair unchanged instead of merging it: the
code requires the comment to start on the very line the statement
ends. -/
theorem inline_comments_next_line_counterexample :
    contiguousSameOrNextLine
        (IRNode.Statement (some ⟨1, 1, none, none, none⟩) none)
        (IRNode.Comment (some ⟨2, 2, none, none, none⟩) "c") = true ∧
    inlineCommentsList
      [IRNode.Statement (some ⟨1, 1, none, none, none⟩) none,
       IRNode.Comment (some ⟨2, 2, none, none, none⟩) "c"] =
      [IRNode.Statement (some ⟨1, 1, none, none, none⟩) none,
       IRNode.Comment (some ⟨2, 2, none, none, none⟩) "c"] ∧
    ([IRNode.Statement (some ⟨1, 1, none, none, none⟩) none,
      IRNode.Comment (some ⟨2, 2, none, none, none⟩) "c"] : List IRNode) ≠
      [setComment (IRNode.Statement (some ⟨1, 1, none, none, none⟩) none)
        (IRNode.Comment (some ⟨2, 2, none, none, none⟩) "c")] := by
  refine ⟨rfl, rfl, ?_⟩
  intro h
  simpa using congrArg List.length h

/-- C9 (amended): `inline_comments` merges an adjacent
(statement/declaration, comment) pair into the first node's comment
slot and deletes the standalone comment exactly when both nodes carry
source spans and the comment span starts on the line the preceding
node span ends (same line only); every other adjacent pair, including
pairs with a missing span or a comment only on the next line, is left
in place. -/
theorem inline_comments_merge_characterization :
    (∀ a b rest, commentMergeCond a b = true →
      inlineCommentsList (a :: b :: rest) =
        setComment (inlineCommentsNode a) b :: inlineCommentsList rest) ∧
    (∀ a b rest, commentMergeCond a b = false →
      inlineCommentsList (a :: b :: rest) =
        inlineCommentsNode a :: inlineCommentsList (b :: rest)) ∧
    (∀ a b, commentMergeCond a b = true ↔
      (isStmtOrDecl a = true ∧ isCommentNode b = true ∧
        ∃ sa sb, nodeSrc a = some sa ∧ nodeSrc b = some sb ∧ sb.l1 = sa.l2)) := by
  refine ⟨fun a b rest h => by simp [inlineCommentsList, h],
    fun a b rest h => by simp [inlineCommentsList, h], fun a b => ?_⟩
  constructor
  · intro h
    simp only [commentMergeCond, Bool.and_eq_true] at h
    obtain ⟨⟨h1, h2⟩, h3⟩ := h
    refine ⟨h1, h2, ?_⟩
    cases hsa : nodeSrc a with
    | none => rw [hsa] at h3; simp at h3
    | some sa =>
      cases hsb : nodeSrc b with
      | none => rw [hsa, hsb] at h3; simp at h3
      | some sb =>
        rw [hsa, hsb] at h3
        exact ⟨sa, sb, rfl, rfl, by simpa using h3⟩
  · rintro ⟨h1, h2, sa, sb, hsa, hsb, hline⟩
    simp [commentMergeCond, h1, h2, hsa, hsb, hline]

/-- Witness for C9: the amended merge rule evaluated on a concrete
same-line pair (merged) and the hypothesis sides of the
characterization on that pair. -/
theorem inline_comments_merge_characterization_witness :
    inlineCommentsList
      [IRNode.Statement (some ⟨1, 1, none, none, none⟩) none,
       IRNode.Comment (some ⟨1, 1, none, none, none⟩) "c"] =
      [setComment
        (inlineCommentsNode (IRNode.Statement (some ⟨1, 1, none, none, none⟩) none))
        (IRNode.Comment (some ⟨1, 1, none, none, none⟩) "c")] :=
  inline_comments_merge_characterization.1 _ _ [] rfl

/-- C8: kernel-dialect statement emission uses the streaming-bind
operator `<==` exactly when the assignment target is an `Array`
instance and plain `=` otherwise, and the two renderings are distinct
for every statement built from the same rendered target, expression and
comment. -/
theorem visit_Statement_streaming_bind :
    (∀ st depth tgt e, tgt.isArrayInst = true →
      visit_Statement_maxj st depth tgt e none =
        some (indentStr depth ++
          (maxj_map st tgt ++ " <== " ++ maxj_map st e ++ ";\n"))) ∧
    (∀ st depth tgt e, tgt.isArrayInst = false →
      visit_Statement_maxj st depth tgt e none =
        some (indentStr depth ++
          (maxj_map st tgt ++ " = " ++ maxj_map st e ++ ";\n"))) ∧
    (∀ st depth t1 t2 e c out1 out2, t1.isArrayInst = true →
      t2.isArrayInst = false → maxj_map st t1 = maxj_map st t2 →
      visit_Statement_maxj st depth t1 e c = some out1 →
      visit_Statement_maxj st depth t2 e c = some out2 →
      out1 ≠ out2) := by
  refine ⟨fun st depth tgt e h => by simp [visit_Statement_maxj, h],
    fun st depth tgt e h => by simp [visit_Statement_maxj, h], ?_⟩
  intro st depth t1 t2 e c out1 out2 h1 h2 hmap hv1 hv2
  have len5 : (" <== ").length = 5 := rfl
  have len3 : (" = ").length = 3 := rfl
  cases c with
  | none =>
    simp [visit_Statement_maxj, h1, h2] at hv1 hv2
    intro heq
    rw [← hv1, ← hv2, hmap] at heq
    have hlen := congrArg String.length heq
    simp only [String.length_append, len5, len3] at hlen
    omega
  | some p =>
    obtain ⟨src, txt⟩ := p
    cases hcm : visit_MaxjComment depth src txt with
    | none =>
      rw [show visit_Statement_maxj st depth t1 e (some (src, txt)) =
        (match visit_MaxjComment depth src txt with
         | none => none
         | some cm => some (indentStr depth ++
            (if t1.isArrayInst then
              maxj_map st t1 ++ " <== " ++ maxj_map st e ++ ";\n"
             else maxj_map st t1 ++ " = " ++ maxj_map st e ++ ";\n") ++
            "  " ++ cm)) from rfl, hcm] at hv1
      exact absurd hv1 (by simp)
    | some cm =>
      rw [show visit_Statement_maxj st depth t1 e (some (src, txt)) =
        (match visit_MaxjComment depth src txt with
         | none => none
         | some cm2 => some (indentStr depth ++
            (if t1.isArrayInst then
              maxj_map st t1 ++ " <== " ++ maxj_map st e ++ ";\n"
             else maxj_map st t1 ++ " = " ++ maxj_map st e ++ ";\n") ++
            "  " ++ cm2)) from rfl, hcm] at hv1
      rw [show visit_Statement_maxj st depth t2 e (some (src, txt)) =
        (match visit_MaxjComment depth src txt with
         | none => none
         | some cm2 => some (indentStr depth ++
            (if t2.isArrayInst then
              maxj_map st t2 ++ " <== " ++ maxj_map st e ++ ";\n"
             else maxj_map st t2 ++ " = " ++ maxj_map st e ++ ";\n") ++
            "  " ++ cm2)) from rfl, hcm] at hv2
      simp [h1, h2] at hv1 hv2
      intro heq
      rw [← hv1, ← hv2, hmap] at heq
      have hlen := congrArg String.length heq
      simp only [String.length_append, len5, len3] at hlen
      omega

/-- Witness for C8: the two emissions on a concrete array and scalar
target of the same rendered name, and their distinctness. -/
theorem visit_Statement_streaming_bind_witness :
    visit_Statement_maxj ⟨[], []⟩ 0 (MExpr.arrayVar "v" 0 [] none)
        (MExpr.intLit 1) none =
      some (indentStr 0 ++ (maxj_map ⟨[], []⟩ (MExpr.arrayVar "v" 0 [] none) ++
        " <== " ++ maxj_map ⟨[], []⟩ (MExpr.intLit 1) ++ ";\n")) ∧
    visit_Statement_maxj ⟨[], []⟩ 0 (MExpr.scalarVar "v" 0 none)
        (MExpr.intLit 1) none =
      some (indentStr 0 ++ (maxj_map ⟨[], []⟩ (MExpr.scalarVar "v" 0 none) ++
        " = " ++ maxj_map ⟨[], []⟩ (MExpr.intLit 1) ++ ";\n")) ∧
    ("v <== 1;\n" : String) ≠ "v = 1;\n" :=
  ⟨visit_Statement_streaming_bind.1 ⟨[], []⟩ 0 _ _ rfl,
   visit_Statement_streaming_bind.2.1 ⟨[], []⟩ 0 _ _ rfl,
   visit_Statement_streaming_bind.2.2 ⟨[], []⟩ 0
     (MExpr.arrayVar "v" 0 [] none) (MExpr.scalarVar "v" 0 none)
     (MExpr.intLit 1) none _ _ rfl rfl (by decide) rfl rfl⟩

theorem lookupSymbol_define (st : State) (sc : ScopeId) (n : String)
    (tid : TypeId) (sc2 : ScopeId) (n2 : String) :
    lookupSymbol (defineSymbol st sc n tid) sc2 n2 =
      if (sc, n) = (sc2, n2) then some tid else lookupSymbol st sc2 n2 := by
  by_cases h : ((sc, n) : ScopeId × String) = (sc2, n2)
  · simp [lookupSymbol, defineSymbol, List.find?_cons_of_pos, h]
  · simp only [lookupSymbol, defineSymbol]
    rw [List.find?_cons_of_neg]
    · simp [h]
    · simp [h]

theorem instantiate_obj_eq : ∀ (fuel : Nat) (st : State) (obj o : VarObj)
    (st2 : State),
    instantiate_derived_type_variables fuel st obj = some (o, st2) → o = obj := by
  intro fuel st obj o st2 h
  match fuel with
  | 0 => simp [instantiate_derived_type_variables] at h
  | Nat.succ f =>
    simp only [instantiate_derived_type_variables] at h
    repeat' split at h
    all_goals simp_all

theorem Variable_new_name_scope : ∀ (fuel : Nat) (st : State) (n : String)
    (sc : ScopeId) (ty : Option TypeId) (dims : Option (List PExpr))
    (v : VarObj) (st2 : State),
    Variable_new fuel st n sc ty dims = some (v, st2) →
    v.name = n ∧ v.scope = sc := by
  intro fuel st n sc ty dims v st2 h
  match fuel with
  | 0 => simp [Variable_new] at h
  | Nat.succ f =>
    simp only [Variable_new] at h
    repeat' split at h
    all_goals first
      | (have he := instantiate_obj_eq _ _ _ _ _ h
         subst he
         exact ⟨rfl, rfl⟩)
      | simp_all

/-- C2: a type bound for (name, scope) by `define` (or by the
`Scalar.type`/`Array.type` setter) is exactly what every live type read
of that (name, scope) pair returns, it survives unrelated definitions
until overwritten, and two `Variable` constructions with the same
(name, scope) observe the same live type object, since the type
property is a live symbol-table lookup and never a cached copy. -/
theorem type_lookup_is_live :
    (∀ st sc n tid, lookupSymbol (defineSymbol st sc n tid) sc n = some tid) ∧
    (∀ st sc n tid sc2 n2 tid2, (sc2, n2) ≠ ((sc, n) : ScopeId × String) →
      lookupSymbol (defineSymbol (defineSymbol st sc n tid) sc2 n2 tid2) sc n =
        some tid) ∧
    (∀ st (v : VarObj) tid,
      varTypeIdOf (defineSymbol st v.scope v.name tid) v = some tid) ∧
    (∀ st (v1 v2 : VarObj), v1.name = v2.name → v1.scope = v2.scope →
      varTypeIdOf st v1 = varTypeIdOf st v2) ∧
    (∀ fuel1 fuel2 st st1 st2 n sc ty1 ty2 d1 d2 v1 v2,
      Variable_new fuel1 st n sc ty1 d1 = some (v1, st1) →
      Variable_new fuel2 st1 n sc ty2 d2 = some (v2, st2) →
      varTypeIdOf st2 v1 = varTypeIdOf st2 v2) := by
  refine ⟨?_, ?_, ?_, ?_, ?_⟩
  · intro st sc n tid
    simp [lookupSymbol_define]
  · intro st sc n tid sc2 n2 tid2 hne
    rw [lookupSymbol_define, if_neg hne, lookupSymbol_define, if_pos rfl]
  · intro st v tid
    simp [varTypeIdOf, lookupSymbol_define]
  · intro st v1 v2 hn hs
    simp [varTypeIdOf, hn, hs]
  · intro fuel1 fuel2 st st1 st2 n sc ty1 ty2 d1 d2 v1 v2 h1 h2
    obtain ⟨hn1, hs1⟩ := Variable_new_name_scope _ _ _ _ _ _ _ _ h1
    obtain ⟨hn2, hs2⟩ := Variable_new_name_scope _ _ _ _ _ _ _ _ h2
    simp [varTypeIdOf, hn1, hs1, hn2, hs2]

/-- Witness for C2: define/lookup, stability under an unrelated define,
and two concrete constructions of `a` in scope 0 observing the same
type id. -/
theorem type_lookup_is_live_witness :
    lookupSymbol (defineSymbol (defineSymbol ⟨[], [deferredType]⟩ 0 "a" 0)
        1 "b" 0) 0 "a" = some 0 ∧
    varTypeIdOf ⟨[((0, "a"), 0), ((0, "a"), 0)], [deferredType]⟩
        ⟨"a", 0, false, none⟩ =
      varTypeIdOf ⟨[((0, "a"), 0), ((0, "a"), 0)], [deferredType]⟩
        ⟨"a", 0, false, none⟩ :=
  ⟨type_lookup_is_live.2.1 ⟨[], [deferredType]⟩ 0 "a" 0 1 "b" 0 (by decide),
   type_lookup_is_live.2.2.2.2 2 2 ⟨[], []⟩
     ⟨[((0, "a"), 0)], [deferredType]⟩
     ⟨[((0, "a"), 0), ((0, "a"), 0)], [deferredType]⟩
     "a" 0 none none none none ⟨"a", 0, false, none⟩ ⟨"a", 0, false, none⟩
     rfl rfl⟩

/-- C3: a `Variable` construction yields a `Scalar` exactly when no
explicit dimensions are supplied and the resolved type's shape is
absent or empty, and an `Array` (carrying exactly the supplied
dimensions) otherwise; the classification is derived from
(dimensions, resolved shape) at construction. -/
theorem variable_classification : ∀ (fuel : Nat) (st : State) (n : String)
    (sc : ScopeId) (ty : Option TypeId) (dims : Option (List PExpr))
    (v : VarObj) (st2 : State),
    Variable_new fuel st n sc ty dims = some (v, st2) →
    v.isArrayCls = !(dims.isNone && resolvedShapeEmpty st sc n ty) ∧
    v.dimensions = dims := by
  intro fuel st n sc ty dims v st2 h
  match fuel with
  | 0 => simp [Variable_new] at h
  | Nat.succ f =>
    simp only [Variable_new] at h
    split at h
    case _ tid heq1 =>
      split at h
      case _ heq2 => simp at h
      case _ tobj heq2 =>
        have he := instantiate_obj_eq _ _ _ _ _ h
        subst he
        refine ⟨?_, rfl⟩
        simp [resolvedShapeEmpty, resolvedTypeId, heq1, heq2]
    case _ heq1 =>
      have he := instantiate_obj_eq _ _ _ _ _ h
      subst he
      refine ⟨?_, rfl⟩
      simp [resolvedShapeEmpty, resolvedTypeId, heq1]

/-- Witness for C3: constructing `a` in scope 0 with no type and no
dimensions yields a `Scalar` (classification false) with no stored
dimensions. -/
theorem variable_classification_witness :
    (VarObj.isArrayCls ⟨"a", 0, false, none⟩ =
      !((Option.isNone (none : Option (List PExpr))) &&
        resolvedShapeEmpty ⟨[], []⟩ 0 "a" none)) ∧
    (VarObj.dimensions ⟨"a", 0, false, none⟩ =
      (none : Option (List PExpr))) :=
  variable_classification 2 ⟨[], []⟩ "a" 0 none none
    ⟨"a", 0, false, none⟩ ⟨[((0, "a"), 0)], [deferredType]⟩ rfl

theorem length_vname (a b : String) :
    a.length < (a ++ "%" ++ b).length := by
  have h1 : ("%" : String).length = 1 := rfl
  simp [String.length_append, h1]
  omega

mutual

theorem Variable_new_frame : ∀ (fuel : Nat) (st : State) (n : String)
    (sc : ScopeId) (ty : Option TypeId) (dims : Option (List PExpr))
    (v : VarObj) (st2 : State),
    Variable_new fuel st n sc ty dims = some (v, st2) →
    (st.heap.length ≤ st2.heap.length ∧
      (∀ i, i < st.heap.length → st2.heap[i]? = st.heap[i]?)) ∧
    (∀ sc2 n2, (sc2 ≠ sc ∨ n2.length < n.length) →
      lookupSymbol st2 sc2 n2 = lookupSymbol st sc2 n2) ∧
    (∀ sc2 n2 tid, lookupSymbol st2 sc2 n2 = some tid →
      lookupSymbol st sc2 n2 = some tid ∨ st.heap.length ≤ tid ∨
        ty = some tid) ∧
    (∀ tid0 tobj k0 v0 rest0, resolvedTypeId st sc n ty = some tid0 →
      st.heap[tid0]? = some tobj → tobj.dtype = DataType.DERIVED_TYPE →
      tobj.fieldVars = (k0, v0) :: rest0 → v0.scope ≠ sc →
      ∃ ntid, st.heap.length ≤ ntid ∧ lookupSymbol st2 sc n = some ntid ∧
        ∃ nobj, st2.heap[ntid]? = some nobj ∧
          ∀ kv ∈ nobj.fieldVars, (kv : String × VarRef).2.scope = sc)
  | 0, st, n, sc, ty, dims, v, st2, h => by simp [Variable_new] at h
  | Nat.succ f, st, n, sc, ty, dims, v, st2, h => by
    simp only [Variable_new] at h
    split at h
    case _ tid0 heqt =>
      split at h
      case _ heqh => simp at h
      case _ tobj heqh =>
        have IB := instantiate_frame f (defineSymbol st sc n tid0) _ v st2 h
        obtain ⟨⟨ib1, ib2⟩, ib3, ib4, ib5⟩ := IB
        have hne_of : ∀ sc2 n2, (sc2 ≠ sc ∨ n2.length < n.length) →
            ¬(((sc, n) : ScopeId × String) = (sc2, n2)) := by
          intro sc2 n2 hcond hp
          obtain ⟨hsc, hn⟩ := Prod.mk.inj hp
          rcases hcond with hx | hx
          · exact hx hsc.symm
          · subst hn; exact Nat.lt_irrefl _ hx
        refine ⟨⟨ib1, ib2⟩, ?_, ?_, ?_⟩
        · intro sc2 n2 hcond
          rw [ib3 sc2 n2 hcond, lookupSymbol_define,
            if_neg (hne_of sc2 n2 hcond)]
        · intro sc2 n2 tid htid
          rcases ib4 sc2 n2 tid htid with hold | hfresh
          · rw [lookupSymbol_define] at hold
            split at hold
            case _ hp =>
              obtain ⟨hsc, hn⟩ := Prod.mk.inj hp
              have htid0 : tid0 = tid := by simpa using hold
              rcases ty with _ | t
              · left
                rw [← hsc, ← hn]
                rw [show (match (none : Option TypeId) with
                    | some t2 => some t2
                    | none => lookupSymbol st sc n) = lookupSymbol st sc n
                  from rfl] at heqt
                rw [heqt, htid0]
              · right; right
                have ht : t = tid0 := by
                  have h6 := heqt
                  rw [show (match (some t : Option TypeId) with
                      | some t2 => some t2
                      | none => lookupSymbol st sc n) = some t from rfl] at h6
                  simpa using h6
                rw [ht, htid0]
            case _ hp => exact Or.inl hold
          · exact Or.inr (Or.inl hfresh)
        · intro tid1 tobj1 k0 v0 rest0 hr hheap hder hflds hsc0
          have hvt : varTypeIdOf (defineSymbol st sc n tid0)
              ⟨n, sc, !(dims.isNone &&
                match tobj.shape with
                | none => true
                | some l => l.isEmpty), dims⟩ = some tid0 := by
            simp [varTypeIdOf, lookupSymbol_define]
          have htid1 : tid1 = tid0 := by
            have h7 : resolvedTypeId st sc n ty = some tid0 := by
              simpa [resolvedTypeId] using heqt
            rw [h7] at hr
            simpa using hr.symm
          have hheap2 : (defineSymbol st sc n tid0).heap[tid0]? =
              some tobj1 := by
            rw [show (defineSymbol st sc n tid0).heap = st.heap from rfl,
              ← htid1]
            exact hheap
          obtain ⟨ntid, hge, hlk, nobj, hno, hP⟩ :=
            ib5 tid0 tobj1 k0 v0 rest0 hvt hheap2 hder hflds hsc0
          exact ⟨ntid, hge, hlk, nobj, hno, hP⟩
    case _ heqt =>
      have IB := instantiate_frame f
        (defineSymbol (allocType st deferredType).2 sc n
          (allocType st deferredType).1) _ v st2 h
      obtain ⟨⟨ib1, ib2⟩, ib3, ib4, ib5⟩ := IB
      have hlen1 : (defineSymbol (allocType st deferredType).2 sc n
          (allocType st deferredType).1).heap.length = st.heap.length + 1 := by
        simp [defineSymbol, allocType]
      have hne_of : ∀ sc2 n2, (sc2 ≠ sc ∨ n2.length < n.length) →
          ¬(((sc, n) : ScopeId × String) = (sc2, n2)) := by
        intro sc2 n2 hcond hp
        obtain ⟨hsc, hn⟩ := Prod.mk.inj hp
        rcases hcond with hx | hx
        · exact hx hsc.symm
        · subst hn; exact Nat.lt_irrefl _ hx
      refine ⟨⟨?_, ?_⟩, ?_, ?_, ?_⟩
      · omega
      · intro i hi
        rw [ib2 i (by omega)]
        simp only [defineSymbol, allocType]
        exact List.getElem?_append_left hi
      · intro sc2 n2 hcond
        rw [ib3 sc2 n2 hcond]
        rw [show lookupSymbol (defineSymbol (allocType st deferredType).2 sc n
            (allocType st deferredType).1) sc2 n2 =
          (if ((sc, n) : ScopeId × String) = (sc2, n2)
           then some (allocType st deferredType).1
           else lookupSymbol (allocType st deferredType).2 sc2 n2)
          from lookupSymbol_define _ _ _ _ _ _, if_neg (hne_of sc2 n2 hcond)]
        rfl
      · intro sc2 n2 tid htid
        rcases ib4 sc2 n2 tid htid with hold | hfresh
        · rw [show lookupSymbol (defineSymbol (allocType st deferredType).2 sc n
              (allocType st deferredType).1) sc2 n2 =
            (if ((sc, n) : ScopeId × String) = (sc2, n2)
             then some (allocType st deferredType).1
             else lookupSymbol (allocType st deferredType).2 sc2 n2)
            from lookupSymbol_define _ _ _ _ _ _] at hold
          split at hold
          case _ hp =>
            have h5 : st.heap.length = tid := Option.some.inj hold
            right; left
            omega
          case _ hp => exact Or.inl hold
        · right; left; omega
      · intro tid1 tobj1 k0 v0 rest0 hr hheap hder hflds hsc0
        exfalso
        have h8 : resolvedTypeId st sc n ty = none := by
          simpa [resolvedTypeId] using heqt
        rw [h8] at hr
        exact Option.noConfusion hr
termination_by fuel st n sc ty dims v st2 h => 4 * fuel

theorem instantiate_frame : ∀ (fuel : Nat) (st : State) (obj : VarObj)
    (o : VarObj) (st2 : State),
    instantiate_derived_type_variables fuel st obj = some (o, st2) →
    (st.heap.length ≤ st2.heap.length ∧
      (∀ i, i < st.heap.length → st2.heap[i]? = st.heap[i]?)) ∧
    (∀ sc2 n2, (sc2 ≠ obj.scope ∨ n2.length < obj.name.length) →
      lookupSymbol st2 sc2 n2 = lookupSymbol st sc2 n2) ∧
    (∀ sc2 n2 tid, lookupSymbol st2 sc2 n2 = some tid →
      lookupSymbol st sc2 n2 = some tid ∨ st.heap.length ≤ tid) ∧
    (∀ tid tobj k0 v0 rest0, varTypeIdOf st obj = some tid →
      st.heap[tid]? = some tobj → tobj.dtype = DataType.DERIVED_TYPE →
      tobj.fieldVars = (k0, v0) :: rest0 → v0.scope ≠ obj.scope →
      ∃ ntid, st.heap.length ≤ ntid ∧
        lookupSymbol st2 obj.scope obj.name = some ntid ∧
        ∃ nobj, st2.heap[ntid]? = some nobj ∧
          ∀ kv ∈ nobj.fieldVars, (kv : String × VarRef).2.scope = obj.scope)
  | 0, st, obj, o, st2, h => by simp [instantiate_derived_type_variables] at h
  | Nat.succ f, st, obj, o, st2, h => by
    have triv : st2 = st →
        (st.heap.length ≤ st2.heap.length ∧
          (∀ i, i < st.heap.length → st2.heap[i]? = st.heap[i]?)) ∧
        (∀ sc2 n2, (sc2 ≠ obj.scope ∨ n2.length < obj.name.length) →
          lookupSymbol st2 sc2 n2 = lookupSymbol st sc2 n2) ∧
        (∀ sc2 n2 tid, lookupSymbol st2 sc2 n2 = some tid →
          lookupSymbol st sc2 n2 = some tid ∨ st.heap.length ≤ tid) := by
      intro he
      subst he
      exact ⟨⟨Nat.le_refl _, fun i _ => rfl⟩, fun _ _ _ => rfl,
        fun _ _ _ hh => Or.inl hh⟩
    simp only [instantiate_derived_type_variables] at h
    split at h
    case _ heqv =>
      obtain ⟨ho, hst⟩ := Prod.mk.inj (Option.some.inj h)
      refine ⟨(triv hst.symm).1, (triv hst.symm).2.1, (triv hst.symm).2.2, ?_⟩
      intro tid tobj k0 v0 rest0 hv _ _ _ _
      rw [heqv] at hv
      exact Option.noConfusion hv
    case _ tid heqv =>
      split at h
      case _ heqh => simp at h
      case _ tobj heqh =>
        split at h
        case _ hder =>
          split at h
          case _ hflds =>
            obtain ⟨ho, hst⟩ := Prod.mk.inj (Option.some.inj h)
            refine ⟨(triv hst.symm).1, (triv hst.symm).2.1,
              (triv hst.symm).2.2, ?_⟩
            intro tid1 tobj1 k0 v0 rest0 hv hh _ hf _
            rw [heqv] at hv
            have h1 : tid1 = tid := by simpa using hv.symm
            subst h1
            rw [heqh] at hh
            have h2 : tobj1 = tobj := by simpa using hh.symm
            subst h2
            rw [hflds] at hf
            exact List.noConfusion hf
          case _ k0a v0a rest0a hflds =>
            split at h
            case _ hscope =>
              split at h
              case _ heqfl => exact Option.noConfusion h
              case _ st3 heqfl =>
                obtain ⟨ho, hst⟩ := Prod.mk.inj (Option.some.inj h)
                subst hst
                exact instantiate_frame_main f st obj tid tobj k0a v0a rest0a
                  st3 heqv heqh hder hflds hscope heqfl
            case _ hscope =>
              obtain ⟨ho, hst⟩ := Prod.mk.inj (Option.some.inj h)
              refine ⟨(triv hst.symm).1, (triv hst.symm).2.1,
                (triv hst.symm).2.2, ?_⟩
              intro tid1 tobj1 k0 v0 rest0 hv hh _ hf hs
              exfalso
              rw [heqv] at hv
              have h1 : tid1 = tid := by simpa using hv.symm
              subst h1
              rw [heqh] at hh
              have h2 : tobj1 = tobj := by simpa using hh.symm
              subst h2
              rw [hflds] at hf
              obtain ⟨hkv, hrest⟩ := List.cons.inj hf
              obtain ⟨_, hv0⟩ := Prod.mk.inj hkv
              apply hs
              rw [← hv0]
              simpa using hscope
        case _ hder =>
          obtain ⟨ho, hst⟩ := Prod.mk.inj (Option.some.inj h)
          refine ⟨(triv hst.symm).1, (triv hst.symm).2.1,
            (triv hst.symm).2.2, ?_⟩
          intro tid1 tobj1 k0 v0 rest0 hv hh hd _ _
          exfalso
          rw [heqv] at hv
          have h1 : tid1 = tid := by simpa using hv.symm
          subst h1
          rw [heqh] at hh
          have h2 : tobj1 = tobj := by simpa using hh.symm
          subst h2
          exact hder hd
termination_by fuel st obj o st2 h => 4 * fuel + 3

theorem instantiate_frame_main (f : Nat) (st : State) (obj : VarObj)
    (tid : TypeId) (tobj : SymbolType) (k0 : String) (v0 : VarRef)
    (rest0 : List (String × VarRef)) (st3 : State)
    (heqv : varTypeIdOf st obj = some tid)
    (heqh : st.heap[tid]? = some tobj)
    (hder : tobj.dtype = DataType.DERIVED_TYPE)
    (hflds : tobj.fieldVars = (k0, v0) :: rest0)
    (hscope : v0.scope ≠ obj.scope)
    (heqfl : instantiateFields f
      (defineSymbol (allocType st { tobj with fieldVars := [] }).2 obj.scope
        obj.name (allocType st { tobj with fieldVars := [] }).1) obj
      ((k0, v0) :: rest0) = some st3) :
    (st.heap.length ≤ st3.heap.length ∧
      (∀ i, i < st.heap.length → st3.heap[i]? = st.heap[i]?)) ∧
    (∀ sc2 n2, (sc2 ≠ obj.scope ∨ n2.length < obj.name.length) →
      lookupSymbol st3 sc2 n2 = lookupSymbol st sc2 n2) ∧
    (∀ sc2 n2 tid2, lookupSymbol st3 sc2 n2 = some tid2 →
      lookupSymbol st sc2 n2 = some tid2 ∨ st.heap.length ≤ tid2) ∧
    (∀ tid1 tobj1 k1 v1 rest1, varTypeIdOf st obj = some tid1 →
      st.heap[tid1]? = some tobj1 → tobj1.dtype = DataType.DERIVED_TYPE →
      tobj1.fieldVars = (k1, v1) :: rest1 → v1.scope ≠ obj.scope →
      ∃ ntid, st.heap.length ≤ ntid ∧
        lookupSymbol st3 obj.scope obj.name = some ntid ∧
        ∃ nobj, st3.heap[ntid]? = some nobj ∧
          ∀ kv ∈ nobj.fieldVars, (kv : String × VarRef).2.scope = obj.scope)
    := by
  have hlen1 : (defineSymbol (allocType st { tobj with fieldVars := [] }).2
      obj.scope obj.name
      (allocType st { tobj with fieldVars := [] }).1).heap.length
      = st.heap.length + 1 := by
    simp [defineSymbol, allocType]
  have hlk1 : lookupSymbol (defineSymbol
      (allocType st { tobj with fieldVars := [] }).2 obj.scope obj.name
      (allocType st { tobj with fieldVars := [] }).1) obj.scope obj.name =
      some st.heap.length := by
    rw [show (allocType st { tobj with fieldVars := [] }).1 = st.heap.length
      from rfl]
    rw [lookupSymbol_define, if_pos rfl]
  have IC := instantiateFields_frame f _ obj ((k0, v0) :: rest0) st3
    st.heap.length st.heap.length heqfl (by omega) hlk1 (Nat.le_refl _)
    (by omega)
  obtain ⟨⟨c1, c2⟩, c3, c4, c6⟩ := IC
  have hheap1 : ∀ i, i < st.heap.length →
      (defineSymbol (allocType st { tobj with fieldVars := [] }).2 obj.scope
        obj.name
        (allocType st { tobj with fieldVars := [] }).1).heap[i]? =
      st.heap[i]? := by
    intro i hi
    simp only [defineSymbol, allocType]
    exact List.getElem?_append_left hi
  have hsym1 : ∀ sc2 n2, ¬(((obj.scope, obj.name) : ScopeId × String)
      = (sc2, n2)) →
      lookupSymbol (defineSymbol
        (allocType st { tobj with fieldVars := [] }).2 obj.scope obj.name
        (allocType st { tobj with fieldVars := [] }).1) sc2 n2 =
      lookupSymbol st sc2 n2 := by
    intro sc2 n2 hne
    rw [lookupSymbol_define, if_neg hne]
    rfl
  refine ⟨⟨by omega, ?_⟩, ?_, ?_, ?_⟩
  · intro i hi
    rw [c2 i hi, hheap1 i hi]
  · intro sc2 n2 hcond
    have hc2 : sc2 ≠ obj.scope ∨ n2.length ≤ obj.name.length := by
      rcases hcond with hx | hx
      · exact Or.inl hx
      · exact Or.inr (Nat.le_of_lt hx)
    rw [c3 sc2 n2 hc2]
    apply hsym1
    intro hp
    obtain ⟨hsc, hn⟩ := Prod.mk.inj hp
    rcases hcond with hx | hx
    · exact hx hsc.symm
    · subst hn; exact Nat.lt_irrefl _ hx
  · intro sc2 n2 tid2 htid
    rcases c4 sc2 n2 tid2 htid with hold | hge
    · rw [lookupSymbol_define] at hold
      split at hold
      case _ hp =>
        right
        have h5 : st.heap.length = tid2 := Option.some.inj hold
        omega
      case _ hp => exact Or.inl hold
    · exact Or.inr hge
  · intro tid1 tobj1 k1 v1 rest1 _ _ _ _ _
    refine ⟨st.heap.length, Nat.le_refl _, ?_, ?_⟩
    · rw [c3 obj.scope obj.name (Or.inr (Nat.le_refl _)), hlk1]
    · have hstart : (defineSymbol
          (allocType st { tobj with fieldVars := [] }).2 obj.scope obj.name
          (allocType st { tobj with fieldVars := [] }).1).heap[st.heap.length]?
          = some { tobj with fieldVars := [] } := by
        simp only [defineSymbol, allocType]
        exact List.getElem?_concat_length _ _
      obtain ⟨u2, hu2, hP⟩ := c6 { tobj with fieldVars := [] } hstart
        (by intro kv hkv; simp at hkv)
      exact ⟨u2, hu2, hP⟩
termination_by 4 * f + 2

theorem instantiateFields_frame : ∀ (fuel : Nat) (st : State) (obj : VarObj)
    (fields : List (String × VarRef)) (st2 : State) (L utid : Nat),
    instantiateFields fuel st obj fields = some st2 →
    L ≤ st.heap.length →
    lookupSymbol st obj.scope obj.name = some utid →
    L ≤ utid → utid < st.heap.length →
    (st.heap.length ≤ st2.heap.length ∧
      (∀ i, i < L → st2.heap[i]? = st.heap[i]?)) ∧
    (∀ sc2 n2, (sc2 ≠ obj.scope ∨ n2.length ≤ obj.name.length) →
      lookupSymbol st2 sc2 n2 = lookupSymbol st sc2 n2) ∧
    (∀ sc2 n2 tid, lookupSymbol st2 sc2 n2 = some tid →
      lookupSymbol st sc2 n2 = some tid ∨ L ≤ tid) ∧
    (∀ u, st.heap[utid]? = some u →
      (∀ kv ∈ u.fieldVars, (kv : String × VarRef).2.scope = obj.scope) →
      ∃ u2, st2.heap[utid]? = some u2 ∧
        ∀ kv ∈ u2.fieldVars, (kv : String × VarRef).2.scope = obj.scope)
  | 0, st, obj, fields, st2, L, utid, h, hL, hlk, hLu, hulen => by
    simp [instantiateFields] at h
  | Nat.succ f, st, obj, [], st2, L, utid, h, hL, hlk, hLu, hulen => by
    have hst : st = st2 := by simpa [instantiateFields] using h
    subst hst
    exact ⟨⟨Nat.le_refl _, fun i _ => rfl⟩, fun _ _ _ => rfl,
      fun _ _ _ hh => Or.inl hh, fun u hu hP => ⟨u, hu, hP⟩⟩
  | Nat.succ f, st, obj, (k, v) :: rest, st2, L, utid, h, hL, hlk, hLu,
      hulen => by
    simp only [instantiateFields] at h
    split at h
    case _ heqvt => exact Option.noConfusion h
    case _ vt heqvt =>
      split at h
      case _ heqvo => exact Option.noConfusion h
      case _ vtobj heqvo =>
        split at h
        case _ heqVN => exact Option.noConfusion h
        case _ fv heqVN =>
          split at h
          case _ hequ => exact Option.noConfusion h
          case _ utid2 hequ =>
            split at h
            case _ hequo => exact Option.noConfusion h
            case _ uobj hequo =>
              exact instantiateFields_frame_step f st obj k v rest st2 L utid
                vt vtobj fv utid2 uobj heqvt heqvo heqVN hequ hequo h
                hL hlk hLu hulen
termination_by fuel st obj fields st2 L utid h hL hlk hLu hulen => 4 * fuel

theorem instantiateFields_frame_step (f : Nat) (st : State) (obj : VarObj)
    (k : String) (v : VarRef) (rest : List (String × VarRef)) (st2 : State)
    (L utid : Nat) (vt : TypeId) (vtobj : SymbolType) (fv : VarObj × State)
    (utid2 : TypeId) (uobj : SymbolType)
    (heqvt : lookupSymbol st v.scope v.name = some vt)
    (heqvo : st.heap[vt]? = some vtobj)
    (heqVN : Variable_new f
      (allocType st { vtobj with parent := some ⟨obj.name, obj.scope⟩ }).2
      (obj.name ++ "%" ++ basename v.name) obj.scope
      (some (allocType st
        { vtobj with parent := some ⟨obj.name, obj.scope⟩ }).1) none =
      some fv)
    (hequ : varTypeIdOf fv.2 obj = some utid2)
    (hequo : fv.2.heap[utid2]? = some uobj)
    (h : instantiateFields f
      (updateHeap fv.2 utid2
        { uobj with fieldVars :=
          uobj.fieldVars ++ [(k, ⟨fv.1.name, fv.1.scope⟩)] })
      obj rest = some st2)
    (hL : L ≤ st.heap.length)
    (hlk : lookupSymbol st obj.scope obj.name = some utid)
    (hLu : L ≤ utid) (hulen : utid < st.heap.length) :
    (st.heap.length ≤ st2.heap.length ∧
      (∀ i, i < L → st2.heap[i]? = st.heap[i]?)) ∧
    (∀ sc2 n2, (sc2 ≠ obj.scope ∨ n2.length ≤ obj.name.length) →
      lookupSymbol st2 sc2 n2 = lookupSymbol st sc2 n2) ∧
    (∀ sc2 n2 tid, lookupSymbol st2 sc2 n2 = some tid →
      lookupSymbol st sc2 n2 = some tid ∨ L ≤ tid) ∧
    (∀ u, st.heap[utid]? = some u →
      (∀ kv ∈ u.fieldVars, (kv : String × VarRef).2.scope = obj.scope) →
      ∃ u2, st2.heap[utid]? = some u2 ∧
        ∀ kv ∈ u2.fieldVars, (kv : String × VarRef).2.scope = obj.scope)
    := by
  have hpalen : (allocType st
      { vtobj with parent := some ⟨obj.name, obj.scope⟩ }).2.heap.length =
      st.heap.length + 1 := by
    simp [allocType]
  have hA := Variable_new_frame f
    (allocType st { vtobj with parent := some ⟨obj.name, obj.scope⟩ }).2
    (obj.name ++ "%" ++ basename v.name) obj.scope
    (some (allocType st
      { vtobj with parent := some ⟨obj.name, obj.scope⟩ }).1) none
    fv.1 fv.2 heqVN
  obtain ⟨⟨a1, a2⟩, a3, a4, _⟩ := hA
  have hfvlen : st.heap.length + 1 ≤ fv.2.heap.length := by
    rw [← hpalen]; exact a1
  have hvlen : obj.name.length < (obj.name ++ "%" ++ basename v.name).length :=
    length_vname _ _
  have hlkpa : lookupSymbol (allocType st
      { vtobj with parent := some ⟨obj.name, obj.scope⟩ }).2 obj.scope
      obj.name = some utid := hlk
  have hlkfv : lookupSymbol fv.2 obj.scope obj.name = some utid := by
    rw [a3 obj.scope obj.name (Or.inr hvlen)]
    exact hlkpa
  have hutid2 : utid2 = utid := by
    have h9 := hequ
    rw [show varTypeIdOf fv.2 obj = lookupSymbol fv.2 obj.scope obj.name
      from rfl, hlkfv] at h9
    simpa using h9.symm
  subst hutid2
  have hheapfv : fv.2.heap[utid2]? = st.heap[utid2]? := by
    rw [a2 utid2 (by rw [hpalen]; omega)]
    simp only [allocType]
    exact List.getElem?_append_left hulen
  have huobj : st.heap[utid2]? = some uobj := by rw [← hheapfv]; exact hequo
  have hst4len : (updateHeap fv.2 utid2
      { uobj with fieldVars :=
        uobj.fieldVars ++ [(k, ⟨fv.1.name, fv.1.scope⟩)] }).heap.length =
      fv.2.heap.length := by
    simp [updateHeap]
  have hulen4 : utid2 < fv.2.heap.length :=
    Nat.lt_of_lt_of_le (Nat.lt_succ_of_lt hulen) hfvlen
  have hlk4 : lookupSymbol (updateHeap fv.2 utid2
      { uobj with fieldVars :=
        uobj.fieldVars ++ [(k, ⟨fv.1.name, fv.1.scope⟩)] }) obj.scope
      obj.name = some utid2 := hlkfv
  have IH := instantiateFields_frame f _ obj rest st2 L utid2 h
    (by rw [hst4len]; omega) hlk4 hLu (by rw [hst4len]; omega)
  obtain ⟨⟨r1, r2⟩, r3, r4, r6⟩ := IH
  have hstep_heap : ∀ i, i < L → (updateHeap fv.2 utid2
      { uobj with fieldVars :=
        uobj.fieldVars ++ [(k, ⟨fv.1.name, fv.1.scope⟩)] }).heap[i]? =
      st.heap[i]? := by
    intro i hi
    simp only [updateHeap]
    rw [List.getElem?_set_ne (by omega)]
    rw [a2 i (by rw [hpalen]; omega)]
    simp only [allocType]
    exact List.getElem?_append_left (by omega)
  have hstep_sym : ∀ sc2 n2, (sc2 ≠ obj.scope ∨ n2.length ≤ obj.name.length) →
      lookupSymbol (updateHeap fv.2 utid2
        { uobj with fieldVars :=
          uobj.fieldVars ++ [(k, ⟨fv.1.name, fv.1.scope⟩)] }) sc2 n2 =
      lookupSymbol st sc2 n2 := by
    intro sc2 n2 hcond
    have hc : sc2 ≠ obj.scope ∨
        n2.length < (obj.name ++ "%" ++ basename v.name).length := by
      rcases hcond with hx | hx
      · exact Or.inl hx
      · exact Or.inr (by omega)
    rw [show lookupSymbol (updateHeap fv.2 utid2
        { uobj with fieldVars :=
          uobj.fieldVars ++ [(k, ⟨fv.1.name, fv.1.scope⟩)] }) sc2 n2 =
      lookupSymbol fv.2 sc2 n2 from rfl, a3 sc2 n2 hc]
    rfl
  refine ⟨⟨?_, ?_⟩, ?_, ?_, ?_⟩
  · rw [hst4len] at r1
    omega
  · intro i hi
    rw [r2 i hi, hstep_heap i hi]
  · intro sc2 n2 hcond
    rw [r3 sc2 n2 hcond, hstep_sym sc2 n2 hcond]
  · intro sc2 n2 tid htid
    rcases r4 sc2 n2 tid htid with hold | hge
    · rw [show lookupSymbol (updateHeap fv.2 utid2
          { uobj with fieldVars :=
            uobj.fieldVars ++ [(k, ⟨fv.1.name, fv.1.scope⟩)] }) sc2 n2 =
        lookupSymbol fv.2 sc2 n2 from rfl] at hold
      rcases a4 sc2 n2 tid hold with ho2 | hge2 | hty
      · exact Or.inl ho2
      · right
        rw [hpalen] at hge2
        omega
      · right
        have h10 : st.heap.length = tid := Option.some.inj hty
        omega
    · exact Or.inr hge
  · intro u hu hP
    have huu : u = uobj := by
      rw [huobj] at hu
      simpa using hu.symm
    subst huu
    have hscopefv : fv.1.scope = obj.scope :=
      (Variable_new_name_scope _ _ _ _ _ _ _ _ heqVN).2
    have hst4u : (updateHeap fv.2 utid2
        { u with fieldVars :=
          u.fieldVars ++ [(k, ⟨fv.1.name, fv.1.scope⟩)] }).heap[utid2]? =
        some { u with fieldVars :=
          u.fieldVars ++ [(k, ⟨fv.1.name, fv.1.scope⟩)] } := by
      simp only [updateHeap]
      exact List.getElem?_set_self hulen4
    refine r6 _ hst4u ?_
    intro kv hkv
    simp only [List.mem_append, List.mem_singleton] at hkv
    rcases hkv with hkv | hkv
    · exact hP kv hkv
    · subst hkv
      simpa using hscopefv
termination_by 4 * f + 1

end

/-- C1: constructing a `Variable` whose resolved type is a derived type
with a foreign field list clones the type into the new owning scope with
a fresh field mapping and re-instantiates every field variable against
the new scope, so that afterwards no mutation of the types bound in the
instance scope - neither rebinding `instance.field.type` nor mutating
the bound type object in place - alters the original type-definition
scope's field binding or field `Type` object. -/
theorem derived_type_reinstantiation_frame : ∀ (fuel : Nat) (st : State)
    (n : String) (sc : ScopeId) (ty : Option TypeId)
    (dims : Option (List PExpr)) (v : VarObj) (st2 : State)
    (tds : ScopeId) (fn : String) (ftid : TypeId),
    Variable_new fuel st n sc ty dims = some (v, st2) →
    tds ≠ sc →
    lookupSymbol st tds fn = some ftid →
    ftid < st.heap.length →
    ty ≠ some ftid →
    (∀ n2, lookupSymbol st sc n2 ≠ some ftid) →
    (lookupSymbol st2 tds fn = some ftid) ∧
    (st2.heap[ftid]? = st.heap[ftid]?) ∧
    (∀ n2 tid2, lookupSymbol (defineSymbol st2 sc n2 tid2) tds fn =
      some ftid) ∧
    (∀ n2 tid2 mu, lookupSymbol st2 sc n2 = some tid2 →
      (updateHeap st2 tid2 mu).heap[ftid]? = st.heap[ftid]?) ∧
    (∀ tid0 tobj k0 v0 rest0, resolvedTypeId st sc n ty = some tid0 →
      st.heap[tid0]? = some tobj → tobj.dtype = DataType.DERIVED_TYPE →
      tobj.fieldVars = (k0, v0) :: rest0 → v0.scope ≠ sc →
      ∃ ntid, st.heap.length ≤ ntid ∧ lookupSymbol st2 sc n = some ntid ∧
        ∃ nobj, st2.heap[ntid]? = some nobj ∧
          ∀ kv ∈ nobj.fieldVars, (kv : String × VarRef).2.scope = sc) := by
  intro fuel st n sc ty dims v st2 tds fn ftid h htds hbind hflt hty halias
  obtain ⟨⟨a1, a2⟩, a3, a4, a5⟩ := Variable_new_frame fuel st n sc ty dims
    v st2 h
  have h1 : lookupSymbol st2 tds fn = some ftid := by
    rw [a3 tds fn (Or.inl htds)]
    exact hbind
  have h2 : st2.heap[ftid]? = st.heap[ftid]? := a2 ftid hflt
  refine ⟨h1, h2, ?_, ?_, a5⟩
  · intro n2 tid2
    rw [lookupSymbol_define, if_neg (by
      intro hp
      exact htds (Prod.mk.inj hp).1.symm)]
    exact h1
  · intro n2 tid2 mu htid
    have hne : tid2 ≠ ftid := by
      rcases a4 sc n2 tid2 htid with hold | hge | htyeq
      · intro he
        subst he
        exact halias n2 hold
      · intro he
        rw [he] at hge
        exact Nat.lt_irrefl _ (Nat.lt_of_lt_of_le hflt hge)
      · intro he
        subst he
        exact hty htyeq
    rw [show (updateHeap st2 tid2 mu).heap = st2.heap.set tid2 mu from rfl]
    rw [List.getElem?_set_ne hne]
    exact h2

/-- Witness for C1: a concrete typedef scope 0 holding field `f` (type
object 0) and a derived type (object 1); constructing `x` in scope 1
re-instantiates the field as `x%f` with a fresh cloned type (object 3),
and mutating that object in place leaves the typedef scope's field type
object 0 untouched; the cloned type (object 2) holds the re-parented
field variable in scope 1. -/
theorem derived_type_reinstantiation_frame_witness :
    (updateHeap
      ⟨[((1, "x%f"), 3), ((1, "x"), 2), ((1, "x"), 1), ((0, "f"), 0)],
        [deferredType,
         ⟨DataType.DERIVED_TYPE, none, none, false, false, false, false, none,
           [("f", ⟨"f", 0⟩)], none⟩,
         ⟨DataType.DERIVED_TYPE, none, none, false, false, false, false, none,
           [("f", ⟨"x%f", 1⟩)], none⟩,
         ⟨DataType.DEFERRED, none, none, false, false, false, false, none,
           [], some ⟨"x", 1⟩⟩]⟩
      3 deferredType).heap[0]? =
      (⟨[((0, "f"), 0)],
        [deferredType,
         ⟨DataType.DERIVED_TYPE, none, none, false, false, false, false, none,
           [("f", ⟨"f", 0⟩)], none⟩]⟩ : State).heap[0]? ∧
    (∃ ntid, 2 ≤ ntid ∧
      lookupSymbol
        ⟨[((1, "x%f"), 3), ((1, "x"), 2), ((1, "x"), 1), ((0, "f"), 0)],
          [deferredType,
           ⟨DataType.DERIVED_TYPE, none, none, false, false, false, false,
             none, [("f", ⟨"f", 0⟩)], none⟩,
           ⟨DataType.DERIVED_TYPE, none, none, false, false, false, false,
             none, [("f", ⟨"x%f", 1⟩)], none⟩,
           ⟨DataType.DEFERRED, none, none, false, false, false, false, none,
             [], some ⟨"x", 1⟩⟩]⟩ 1 "x" = some ntid ∧
      ∃ nobj,
        (⟨[((1, "x%f"), 3), ((1, "x"), 2), ((1, "x"), 1), ((0, "f"), 0)],
          [deferredType,
           ⟨DataType.DERIVED_TYPE, none, none, false, false, false, false,
             none, [("f", ⟨"f", 0⟩)], none⟩,
           ⟨DataType.DERIVED_TYPE, none, none, false, false, false, false,
             none, [("f", ⟨"x%f", 1⟩)], none⟩,
           ⟨DataType.DEFERRED, none, none, false, false, false, false, none,
             [], some ⟨"x", 1⟩⟩]⟩ : State).heap[ntid]? = some nobj ∧
        ∀ kv ∈ nobj.fieldVars, (kv : String × VarRef).2.scope = 1) := by
  have halias : ∀ n2, lookupSymbol
      (⟨[((0, "f"), 0)],
        [deferredType,
         ⟨DataType.DERIVED_TYPE, none, none, false, false, false, false, none,
           [("f", ⟨"f", 0⟩)], none⟩]⟩ : State) 1 n2 ≠ some 0 := by
    intro n2 h0
    have h1 : (List.find? (fun p => decide (p.1 = ((1 : ScopeId), n2)))
        [((((0 : ScopeId), "f") : ScopeId × String), (0 : TypeId))]).map
        (fun p => p.2) = some 0 := h0
    rw [List.find?_cons_of_neg] at h1
    · simp at h1
    · simp
  have H := derived_type_reinstantiation_frame 5
    ⟨[((0, "f"), 0)],
      [deferredType,
       ⟨DataType.DERIVED_TYPE, none, none, false, false, false, false, none,
         [("f", ⟨"f", 0⟩)], none⟩]⟩ "x" 1 (some 1) none
    ⟨"x", 1, false, none⟩
    ⟨[((1, "x%f"), 3), ((1, "x"), 2), ((1, "x"), 1), ((0, "f"), 0)],
      [deferredType,
       ⟨DataType.DERIVED_TYPE, none, none, false, false, false, false, none,
         [("f", ⟨"f", 0⟩)], none⟩,
       ⟨DataType.DERIVED_TYPE, none, none, false, false, false, false, none,
         [("f", ⟨"x%f", 1⟩)], none⟩,
       ⟨DataType.DEFERRED, none, none, false, false, false, false, none,
         [], some ⟨"x", 1⟩⟩]⟩
    0 "f" 0 rfl (by decide) rfl (by decide) (by decide) halias
  refine ⟨H.2.2.2.1 "x%f" 3 deferredType rfl, ?_⟩
  exact H.2.2.2.2 1
    ⟨DataType.DERIVED_TYPE, none, none, false, false, false, false, none,
      [("f", ⟨"f", 0⟩)], none⟩ "f" ⟨"f", 0⟩ [] rfl rfl rfl rfl (by decide)

end Loki
